import Mathlib

/-!
Verification of the JustCite citation engine (`chrome/citationFormatter.js`).

JavaScript strings are modelled as `List Char` (`Str`).  A missing metadata
field is modelled as the empty string: the source only ever inspects fields
through JS truthiness (`metadata.x || d`, `if (metadata.x)`), which does not
distinguish `undefined` from `""`, so the two are observationally equal here.

Modelling notes, applying to the whole file:
* `String.prototype.replace` with a string replacement value interprets
  `$`-escape sequences occurring in the replacement; the model performs plain
  literal insertion (the replacement values relevant to the claims contain no
  `$`-escapes).
* character classes `\s` (and `trim`) are modelled over the ASCII whitespace
  characters space, tab, newline, carriage return;
  `toLowerCase`/`toUpperCase` act on ASCII letters (`Char.toLower/toUpper`).
* host behaviour (the current date, `new Date(...)` parsing and locale
  rendering) is passed in explicitly as an `Env` value, since it is
  implementation-defined in the source's host.
* a JavaScript `TypeError` thrown by the source (reading a property of
  `undefined`) is modelled as `Option.none`.
-/

namespace JustCite

abbrev Str := List Char

/-- Convert a Lean string literal to the `List Char` string model. -/
def str (s : String) : Str := s.data

/-- JS `v || d` for strings: `undefined`/`""` are falsy. -/
def jsOr (v d : Str) : Str := if v = [] then d else v

/-- ASCII whitespace, modelling both `\s` and the characters `trim` removes. -/
def isWsChar (c : Char) : Bool := c == ' ' || c == '\t' || c == '\n' || c == '\r'

/-- `[a-zA-Z]`. -/
def isAlphaChar (c : Char) : Bool := ('a' ≤ c && c ≤ 'z') || ('A' ≤ c && c ≤ 'Z')

/-- `[a-z]`. -/
def isLowerAlphaChar (c : Char) : Bool := 'a' ≤ c && c ≤ 'z'

/-- `[0-9]`, i.e. `\d`. -/
def isDigitChar (c : Char) : Bool := '0' ≤ c && c ≤ '9'

/-- `s.toLowerCase()` (ASCII). -/
def toLowerStr (s : Str) : Str := s.map Char.toLower

/-- `s.toUpperCase()` (ASCII). -/
def toUpperStr (s : Str) : Str := s.map Char.toUpper

/-- `s.trimStart()`-like helper (used to build `trim`). -/
def jsTrimLeft (s : Str) : Str := s.dropWhile isWsChar

/-- Drop trailing whitespace. -/
def jsTrimRight (s : Str) : Str := ((s.reverse).dropWhile isWsChar).reverse

/-- JS `s.trim()`. -/
def jsTrim (s : Str) : Str := jsTrimLeft (jsTrimRight s)

/-- JS `s.split(sep)` for a single-character separator. -/
def splitOnChar (sep : Char) : Str → List Str
  | [] => [[]]
  | c :: rest =>
    if c = sep then [] :: splitOnChar sep rest
    else
      match splitOnChar sep rest with
      | [] => [[c]]
      | p :: ps => (c :: p) :: ps

mutual
/-- JS `s.split(/\s+/)`: scanner state outside a whitespace run.
`cur` accumulates the current piece in reverse. -/
def splitWsAux : Str → Str → List Str
  | [], cur => [cur.reverse]
  | c :: rest, cur =>
    if isWsChar c then cur.reverse :: splitWsSkip rest
    else splitWsAux rest (c :: cur)

/-- JS `s.split(/\s+/)`: scanner state inside a whitespace run. -/
def splitWsSkip : Str → List Str
  | [] => [[]]
  | c :: rest => if isWsChar c then splitWsSkip rest else splitWsAux rest [c]
end

/-- JS `s.split(/\s+/)`. -/
def splitWs (s : Str) : List Str := splitWsAux s []

/-- JS `Array.prototype.join(sep)`. -/
def joinSep (sep : Str) : List Str → Str
  | [] => []
  | [x] => x
  | x :: xs => x ++ sep ++ joinSep sep xs

/-- Literal global replacement, fuelled to keep the recursion structural
(`replaceAll pat rep` calls it with enough fuel).  Models
`s.replace(/pat/g, rep)` for a regex that is a literal string. -/
def replaceAllF (pat rep : Str) : Nat → Str → Str
  | _, [] => []
  | 0, s => s
  | fuel + 1, c :: rest =>
    if pat ≠ [] ∧ pat.isPrefixOf (c :: rest) then
      rep ++ replaceAllF pat rep fuel ((c :: rest).drop pat.length)
    else
      c :: replaceAllF pat rep fuel rest

/-- JS `s.replace(/pat/g, rep)` with a literal pattern. -/
def replaceAll (pat rep s : Str) : Str := replaceAllF pat rep s.length s

/-- Digits to a number, for `parseInt` on a `\d+` capture. -/
def digitsToNat (ds : Str) : Nat :=
  ds.foldl (fun acc c => acc * 10 + (c.toNat - '0'.toNat)) 0

/-- The callback of the `shorttitle(n,m)` replacement (source lines 57-63):
first `n` whitespace-delimited words of the title, each lowercased, stripped
to `[a-z]`, truncated to `m` characters; empty results dropped; joined by
`_`. -/
def shortTitleStr (title : Str) (n m : Nat) : Str :=
  joinSep (str "_")
    ((((splitWs title).take n).map
        (fun w => ((toLowerStr w).filter isLowerAlphaChar).take m)).filter
      (fun w => !w.isEmpty))

/-- Try to match the regex `shorttitle\((\d+),\s*(\d+)\)` at the head of `s`;
returns the two captures and the rest of the input after the match. -/
def matchShorttitle (s : Str) : Option (Nat × Nat × Str) :=
  if (str "shorttitle(").isPrefixOf s then
    let s1 := s.drop 11
    let d1 := s1.takeWhile isDigitChar
    if d1 = [] then none
    else
      match s1.dropWhile isDigitChar with
      | ',' :: s3 =>
        let s4 := s3.dropWhile isWsChar
        let d2 := s4.takeWhile isDigitChar
        if d2 = [] then none
        else
          match s4.dropWhile isDigitChar with
          | ')' :: s6 => some (digitsToNat d1, digitsToNat d2, s6)
          | _ => none
      | _ => none
  else none

/-- Fuelled scanner applying the `shorttitle(n,m)` replacement globally. -/
def replaceShorttitleF (title : Str) : Nat → Str → Str
  | _, [] => []
  | 0, s => s
  | fuel + 1, c :: rest =>
    match matchShorttitle (c :: rest) with
    | some (n, m, s') => shortTitleStr title n m ++ replaceShorttitleF title fuel s'
    | none => c :: replaceShorttitleF title fuel rest

/-- `key.replace(/shorttitle\((\d+),\s*(\d+)\)/g, ...)` (source line 57). -/
def replaceShorttitle (title s : Str) : Str := replaceShorttitleF title s.length s

/-- Try to match `\s*\+\s*` (which must contain the `+`) at the head of `s`. -/
def matchPlusSep (s : Str) : Option Str :=
  match s.dropWhile isWsChar with
  | '+' :: s2 => some (s2.dropWhile isWsChar)
  | _ => none

/-- Fuelled scanner for `key.replace(/\s*\+\s*/g, '_')` (source line 66). -/
def plusToUnderscoreF : Nat → Str → Str
  | _, [] => []
  | 0, s => s
  | fuel + 1, c :: rest =>
    match matchPlusSep (c :: rest) with
    | some s' => '_' :: plusToUnderscoreF fuel s'
    | none => c :: plusToUnderscoreF fuel rest

/-- `key.replace(/\s*\+\s*/g, '_')`. -/
def plusToUnderscore (s : Str) : Str := plusToUnderscoreF s.length s

/-- Fuelled scanner for `key.replace(/_+/g, '_')` (source line 67). -/
def collapseUnderscoreF : Nat → Str → Str
  | _, [] => []
  | 0, s => s
  | fuel + 1, c :: rest =>
    if c = '_' then '_' :: collapseUnderscoreF fuel (rest.dropWhile (· = '_'))
    else c :: collapseUnderscoreF fuel rest

/-- `key.replace(/_+/g, '_')`. -/
def collapseUnderscore (s : Str) : Str := collapseUnderscoreF s.length s

/-- `key.replace(/^_|_$/g, '')` (source line 68): one leading and one
trailing underscore removed. -/
def trimUnderscore (s : Str) : Str :=
  let s1 := match s with
    | '_' :: rest => rest
    | other => other
  match s1.getLast? with
  | some '_' => s1.dropLast
  | _ => s1

/-- Separator cleanup, source lines 66-68. -/
def cleanupKey (s : Str) : Str :=
  trimUnderscore (collapseUnderscore (plusToUnderscore s))

/-- Extraction of the first author's last name, source lines 31-41. -/
def extractLastName (author : Str) : Str :=
  let firstAuthor := jsTrim ((splitOnChar ';' author).headD [])
  if ',' ∈ firstAuthor then
    jsTrim ((splitOnChar ',' firstAuthor).headD [])
  else
    jsOr ((splitOnChar ' ' firstAuthor).getLastD []) firstAuthor

/-- `lastName.replace(/[^a-zA-Z]/g, '')`, source line 43. -/
def cleanLastName (author : Str) : Str := (extractLastName author).filter isAlphaChar

/-- `Auth` transform: first char uppercased, rest lowercased (source line 51). -/
def capitalizeStr : Str → Str
  | [] => []
  | c :: rest => c.toUpper :: toLowerStr rest

/-- `year.slice(-2)` (source line 53). -/
def sliceLast2 (s : Str) : Str := s.drop (s.length - 2)

/-- `title.split(/\s+/)[0].toLowerCase().replace(/[^a-z]/g, '')`
(source line 54). -/
def firstWordLowerOf (title : Str) : Str :=
  (toLowerStr ((splitWs title).headD [])).filter isLowerAlphaChar

/-- The key before the `|| 'citation'` fallback: `generateKeyFromFormat`
source lines 26-68.  `nowYear` is `new Date().getFullYear().toString()`. -/
def rawKeyFromFormat (nowYear : Str) (author title year format : Str) : Str :=
  let cln := cleanLastName (jsOr author (str "unknown"))
  let title' := jsOr title (str "untitled")
  let year' := jsOr year nowYear
  let k1 := replaceAll (str "auth.lower") (toLowerStr cln) format
  let k2 := replaceAll (str "auth.upper") (toUpperStr cln) k1
  let k3 := replaceAll (str "Auth") (capitalizeStr cln) k2
  let k4 := replaceAll (str "year") year' k3
  let k5 := replaceAll (str "shortyear") (sliceLast2 year') k4
  let k6 := replaceAll (str "title.lower") (firstWordLowerOf title') k5
  let k7 := replaceShorttitle title' k6
  cleanupKey k7

/-- The metadata record (§3 of the spec); every field is a JS string with
`[]` standing for an absent field, except the boolean `includeAccessDate`. -/
structure Metadata where
  title : Str := []
  author : Str := []
  date : Str := []
  year : Str := []
  url : Str := []
  publisher : Str := []
  doi : Str := []
  isbn : Str := []
  journal : Str := []
  volume : Str := []
  issue : Str := []
  pages : Str := []
  sourceType : Str := []
  keyFormat : Str := []
  includeAccessDate : Bool := false
  deriving Repr, DecidableEq

/-- `generateKeyFromFormat(metadata, format)`, source lines 25-71. -/
def generateKeyFromFormat (nowYear : Str) (m : Metadata) (format : Str) : Str :=
  jsOr (rawKeyFromFormat nowYear m.author m.title m.year format) (str "citation")

/-- The default key format string (source line 11). -/
def defaultKeyFormat : Str := str "auth.lower + shorttitle(3,3) + year"

/-- `generateKey(metadata)`, source lines 10-12. -/
def generateKey (nowYear : Str) (m : Metadata) : Str :=
  generateKeyFromFormat nowYear m defaultKeyFormat

/-! ### The style formatter -/

/-- Host environment: the pieces of `new Date()` behaviour the formatter
observes.  `parse d` models `new Date(d)` on the date string `d`: `none`
when `isNaN(d.getTime())`, and otherwise the pair of its MLA
(`D Mon. YYYY`) and Chicago (`Month D, YYYY`) renderings.  `nowYear`,
`accessMla`, `accessLong` and `isoDate` are today's date as
`getFullYear().toString()`, the two `toLocaleDateString` access-date
renderings, and `toISOString().split('T')[0]`.  `dateFullYear d` is
`new Date(d).getFullYear().toString()`. -/
structure Env where
  nowYear : Str
  accessMla : Str
  accessLong : Str
  isoDate : Str
  parse : Str → Option (Str × Str)
  dateFullYear : Str → Str

/-- Scanner for `authors.split(/;|(\sand\s)/)` (source line 80): pieces
between `;` separators and ` and ` separators (one whitespace character on
each side of `and`).  The captured separator strings themselves are always
removed by the follow-up filter (`a.trim() !== 'and'`), so only the
in-between pieces are produced.  `cur` is the current piece, reversed. -/
def splitAuthorPiecesAux : Str → Str → List Str
  | [], cur => [cur.reverse]
  | ';' :: rest, cur => cur.reverse :: splitAuthorPiecesAux rest []
  | c :: 'a' :: 'n' :: 'd' :: d :: rest, cur =>
    if isWsChar c ∧ isWsChar d then cur.reverse :: splitAuthorPiecesAux rest []
    else splitAuthorPiecesAux ('a' :: 'n' :: 'd' :: d :: rest) (c :: cur)
  | c :: rest, cur => splitAuthorPiecesAux rest (c :: cur)

/-- The pieces of `authors.split(/;|(\sand\s)/)`. -/
def splitAuthorPieces (s : Str) : List Str := splitAuthorPiecesAux s []

/-- The author list of `formatAuthors` (source line 80): split, drop falsy
pieces and pieces trimming to `and`, then trim each piece. -/
def authorEntries (authors : Str) : List Str :=
  ((splitAuthorPieces authors).filter
    (fun p => decide (p ≠ [] ∧ jsTrim p ≠ str "and"))).map jsTrim

/-- `n.charAt(0).toUpperCase()`. -/
def charAt0Upper : Str → Str
  | [] => []
  | c :: _ => [c.toUpper]

/-- `l.map(n => n.charAt(0).toUpperCase() + '.').join(' ')`. -/
def initialsOfList (l : List Str) : Str :=
  joinSep (str " ") (l.map (fun n => charAt0Upper n ++ str "."))

/-- `formatAuthorAPA`, source lines 127-141. -/
def formatAuthorAPA (author : Str) : Str :=
  let parts := (splitOnChar ',' author).map jsTrim
  if 2 ≤ parts.length then
    parts.headD [] ++ str ", " ++ initialsOfList (splitOnChar ' ' (parts.getD 1 []))
  else
    let words := splitOnChar ' ' author
    if 2 ≤ words.length then
      words.getLastD [] ++ str ", " ++ initialsOfList words.dropLast
    else author

/-- `formatAuthorMLA`, source lines 143-153. -/
def formatAuthorMLA (author : Str) (invertOrder : Bool) : Str :=
  let parts := (splitOnChar ',' author).map jsTrim
  if 2 ≤ parts.length then
    if invertOrder then parts.getD 1 [] ++ str " " ++ parts.headD []
    else parts.headD [] ++ str ", " ++ parts.getD 1 []
  else
    let words := splitOnChar ' ' author
    if 2 ≤ words.length ∧ invertOrder = false then
      words.getLastD [] ++ str ", " ++ joinSep (str " ") words.dropLast
    else author

/-- `formatAuthorChicago`, source lines 155-157. -/
def formatAuthorChicago (author : Str) (invertOrder : Bool) : Str :=
  formatAuthorMLA author invertOrder

/-- `formatAuthors`, source lines 76-125.  A JS `TypeError` (indexing an
empty author list with `[0]`/`[length-1]` and calling `.split` on the
resulting `undefined`, possible in the `apa`, `mla` and `chicago` branches)
is modelled as `none`. -/
def formatAuthors (authors : Str) (style : Str) : Option Str :=
  if authors = [] then some []
  else
    let l := authorEntries authors
    if style = str "bibtex" then some (joinSep (str " and ") l)
    else if style = str "apa" then
      match l with
      | [] => none
      | [a] => some (formatAuthorAPA a)
      | [a, b] => some (formatAuthorAPA a ++ str " & " ++ formatAuthorAPA b)
      | a :: rest =>
        if (a :: rest).length ≤ 20 then
          some (joinSep (str ", ") ((a :: rest).dropLast.map formatAuthorAPA) ++
            str ", & " ++ formatAuthorAPA ((a :: rest).getLastD []))
        else
          some (joinSep (str ", ") (((a :: rest).take 19).map formatAuthorAPA) ++
            str ", ... " ++ formatAuthorAPA ((a :: rest).getLastD []))
    else if style = str "mla" then
      match l with
      | [] => none
      | [a] => some (formatAuthorMLA a false)
      | [a, b] =>
        some (formatAuthorMLA a false ++ str ", and " ++ formatAuthorMLA b true)
      | a :: _ => some (formatAuthorMLA a false ++ str ", et al.")
    else if style = str "chicago" then
      match l with
      | [] => none
      | [a] => some (formatAuthorChicago a false)
      | a :: rest =>
        if (a :: rest).length ≤ 3 then
          some (joinSep (str ", ")
              (formatAuthorChicago a false ::
                rest.dropLast.map (formatAuthorChicago · true)) ++
            str ", and " ++ formatAuthorChicago (rest.getLastD []) true)
        else some (formatAuthorChicago a false ++ str " et al.")
    else some (joinSep (str ", ") (l.map formatAuthorAPA))

/-- One author in IEEE order, from `formatAuthorsIEEE` (source lines 467-479). -/
def formatAuthorIEEESingle (author : Str) : Str :=
  let parts := (splitOnChar ',' author).map jsTrim
  if 2 ≤ parts.length then
    initialsOfList (splitOnChar ' ' (parts.getD 1 [])) ++ str " " ++ parts.headD []
  else
    let words := splitOnChar ' ' author
    if 2 ≤ words.length then
      initialsOfList words.dropLast ++ str " " ++ words.getLastD []
    else author

/-- `formatAuthorsIEEE`, source lines 463-480. -/
def formatAuthorsIEEE (authors : Str) : Str :=
  if authors = [] then []
  else joinSep (str ", ") ((authorEntries authors).map formatAuthorIEEESingle)

/-- `formatDate`, source lines 162-200. -/
def formatDate (env : Env) (m : Metadata) (style : Str) : Str :=
  if m.year = [] ∧ m.date = [] then str "n.d."
  else if style = str "apa" then jsOr m.year (env.dateFullYear m.date)
  else if style = str "mla" then
    if m.date ≠ [] then
      match env.parse m.date with
      | some r => r.1
      | none => m.year
    else m.year
  else if style = str "chicago" then
    if m.date ≠ [] then
      match env.parse m.date with
      | some r => r.2
      | none => m.year
    else m.year
  else jsOr m.year m.date

/-- `getAccessDate`, source lines 205-216: the `mla` rendering differs, the
`chicago`, `apa` and default renderings coincide. -/
def getAccessDate (env : Env) (style : Str) : Str :=
  if style = str "mla" then env.accessMla else env.accessLong

/-- The `typeMap` object of `getBibTeXType` (source lines 259-265). -/
def bibtexTypeMap : List (Str × Str) :=
  [(str "webpage", str "online"), (str "article", str "article"),
    (str "book", str "book"), (str "journal", str "article"),
    (str "news", str "article")]

/-- `getBibTeXType`, source lines 253-267. -/
def getBibTeXType (sourceType : Str) (m : Metadata) : Str :=
  if (sourceType = str "article" ∨ sourceType = str "journal") ∧ m.journal = []
  then str "misc"
  else
    match List.lookup sourceType bibtexTypeMap with
    | some v => v
    | none => str "misc"

/-- The BibTeX field list (source lines 226-248), given the already formatted
author string `fa`. -/
def bibtexFields (env : Env) (m : Metadata) (fa : Str) : List Str :=
  (if m.author ≠ [] then [str "  author = \x7b" ++ fa ++ str "\x7d"] else []) ++
  (if m.title ≠ [] then [str "  title = \x7b" ++ m.title ++ str "\x7d"] else []) ++
  (if m.year ≠ [] then [str "  year = \x7b" ++ m.year ++ str "\x7d"] else []) ++
  (if m.url ≠ [] then [str "  url = \x7b" ++ m.url ++ str "\x7d"] else []) ++
  (if m.publisher ≠ [] then [str "  publisher = \x7b" ++ m.publisher ++ str "\x7d"] else []) ++
  (if m.journal ≠ [] then [str "  journal = \x7b" ++ m.journal ++ str "\x7d"] else []) ++
  (if m.volume ≠ [] then [str "  volume = \x7b" ++ m.volume ++ str "\x7d"] else []) ++
  (if m.issue ≠ [] then [str "  number = \x7b" ++ m.issue ++ str "\x7d"] else []) ++
  (if m.pages ≠ [] then [str "  pages = \x7b" ++ m.pages ++ str "\x7d"] else []) ++
  (if m.doi ≠ [] then [str "  doi = \x7b" ++ m.doi ++ str "\x7d"] else []) ++
  (if m.isbn ≠ [] then [str "  isbn = \x7b" ++ m.isbn ++ str "\x7d"] else []) ++
  (if m.includeAccessDate ∧ m.url ≠ [] then
    [str "  urldate = \x7b" ++ env.isoDate ++ str "\x7d"] else [])

/-- `toBibTeX`, source lines 221-251. -/
def toBibTeX (env : Env) (m : Metadata) : Option Str :=
  match formatAuthors m.author (str "bibtex") with
  | none => none
  | some fa =>
    some (str "@" ++ getBibTeXType m.sourceType m ++ str "\x7b" ++
      generateKeyFromFormat env.nowYear m (jsOr m.keyFormat defaultKeyFormat) ++
      str ",\n" ++ joinSep (str ",\n") (bibtexFields env m fa) ++ str "\n\x7d")

/-- `toAPA`, source lines 272-304; it never consults the clock or the date
parser, so the environment argument is unused. -/
def toAPA (_env : Env) (m : Metadata) : Option Str :=
  match formatAuthors m.author (str "apa") with
  | none => none
  | some fa =>
    let authors := jsOr fa (str "Unknown Author")
    let year := jsOr m.year (str "n.d.")
    let title := jsOr m.title (str "Untitled")
    some (jsTrim (authors ++ str " (" ++ year ++ str "). " ++
      (if m.sourceType = str "webpage" ∨ m.sourceType = str "news" then
        title ++ str ". " ++
        (if m.publisher ≠ [] then m.publisher ++ str ". " else []) ++
        (if m.url ≠ [] then m.url else [])
      else if m.sourceType = str "journal" ∨ m.sourceType = str "article" then
        title ++ str ". " ++
        (if m.journal ≠ [] then
          m.journal ++
          (if m.volume ≠ [] then str ", " ++ m.volume else []) ++
          (if m.issue ≠ [] then str "(" ++ m.issue ++ str ")" else []) ++
          (if m.pages ≠ [] then str ", " ++ m.pages else []) ++ str ". "
        else []) ++
        (if m.doi ≠ [] then str "https://doi.org/" ++ m.doi
         else if m.url ≠ [] then m.url else [])
      else if m.sourceType = str "book" then
        title ++ str ". " ++
        (if m.publisher ≠ [] then m.publisher else []) ++
        (if m.doi ≠ [] then str ". https://doi.org/" ++ m.doi else [])
      else
        title ++ str ". " ++ (if m.url ≠ [] then m.url else []))))

/-- `toMLA`, source lines 309-346. -/
def toMLA (env : Env) (m : Metadata) : Option Str :=
  match formatAuthors m.author (str "mla") with
  | none => none
  | some fa =>
    let title := jsOr m.title (str "Untitled")
    let c0 : Str := if fa ≠ [] then fa ++ str ". " else []
    some (jsTrim (c0 ++
      (if m.sourceType = str "webpage" ∨ m.sourceType = str "news" then
        str "\"" ++ title ++ str ".\" " ++
        (if m.publisher ≠ [] then m.publisher ++ str ", " else []) ++
        formatDate env m (str "mla") ++ str ", " ++
        (if m.url ≠ [] then m.url ++ str "." else []) ++
        (if m.includeAccessDate then
          str " Accessed " ++ getAccessDate env (str "mla") ++ str "." else [])
      else if m.sourceType = str "journal" ∨ m.sourceType = str "article" then
        str "\"" ++ title ++ str ".\" " ++
        (if m.journal ≠ [] then m.journal ++ str ", " else []) ++
        (if m.volume ≠ [] then str "vol. " ++ m.volume ++ str ", " else []) ++
        (if m.issue ≠ [] then str "no. " ++ m.issue ++ str ", " else []) ++
        formatDate env m (str "mla") ++ str ", " ++
        (if m.pages ≠ [] then str "pp. " ++ m.pages ++ str ". " else []) ++
        (if m.doi ≠ [] then str "https://doi.org/" ++ m.doi else [])
      else if m.sourceType = str "book" then
        title ++ str ". " ++
        (if m.publisher ≠ [] then m.publisher ++ str ", " else []) ++
        jsOr m.year (str "n.d.") ++ str "."
      else
        str "\"" ++ title ++ str ".\" " ++
        (if m.url ≠ [] then m.url ++ str "." else []) ++
        (if m.includeAccessDate then
          str " Accessed " ++ getAccessDate env (str "mla") ++ str "." else []))))

/-- `toChicago`, source lines 351-384. -/
def toChicago (env : Env) (m : Metadata) : Option Str :=
  match formatAuthors m.author (str "chicago") with
  | none => none
  | some fa =>
    let title := jsOr m.title (str "Untitled")
    let c0 : Str := if fa ≠ [] then fa ++ str ". " else []
    some (jsTrim (c0 ++
      (if m.sourceType = str "webpage" ∨ m.sourceType = str "news" then
        str "\"" ++ title ++ str ".\" " ++
        (if m.publisher ≠ [] then m.publisher ++ str ". " else []) ++
        (if m.date ≠ [] ∨ m.year ≠ [] then
          formatDate env m (str "chicago") ++ str ". " else []) ++
        (if m.url ≠ [] then m.url ++ str "." else [])
      else if m.sourceType = str "journal" ∨ m.sourceType = str "article" then
        str "\"" ++ title ++ str ".\" " ++
        (if m.journal ≠ [] then m.journal ++ str " " else []) ++
        (if m.volume ≠ [] then m.volume else []) ++
        (if m.issue ≠ [] then str ", no. " ++ m.issue else []) ++
        str " (" ++ jsOr m.year (str "n.d.") ++ str "): " ++
        (if m.pages ≠ [] then m.pages ++ str ". " else []) ++
        (if m.doi ≠ [] then str "https://doi.org/" ++ m.doi else [])
      else if m.sourceType = str "book" then
        title ++ str ". " ++
        (if m.publisher ≠ [] then m.publisher ++ str ", " else []) ++
        jsOr m.year (str "n.d.") ++ str "."
      else
        str "\"" ++ title ++ str ".\" " ++
        (if m.url ≠ [] then m.url ++ str "." else []))))

/-- `toHarvard`, source lines 389-421. -/
def toHarvard (env : Env) (m : Metadata) : Option Str :=
  match formatAuthors m.author (str "harvard") with
  | none => none
  | some fa =>
    let authors := jsOr fa (str "Unknown Author")
    let year := jsOr m.year (str "n.d.")
    let title := jsOr m.title (str "Untitled")
    some (jsTrim (authors ++ str " (" ++ year ++ str ") " ++
      (if m.sourceType = str "webpage" ∨ m.sourceType = str "news" then
        str "'" ++ title ++ str "', " ++
        (if m.publisher ≠ [] then m.publisher ++ str ", " else []) ++
        str "Available at: " ++ jsOr m.url (str "URL") ++
        (if m.includeAccessDate then
          str " (Accessed: " ++ getAccessDate env (str "harvard") ++ str ")"
        else []) ++ str "."
      else if m.sourceType = str "journal" ∨ m.sourceType = str "article" then
        str "'" ++ title ++ str "', " ++
        (if m.journal ≠ [] then m.journal ++ str ", " else []) ++
        (if m.volume ≠ [] then m.volume else []) ++
        (if m.issue ≠ [] then str "(" ++ m.issue ++ str ")" else []) ++
        (if m.pages ≠ [] then str ", pp. " ++ m.pages else []) ++
        str "." ++
        (if m.doi ≠ [] then str " doi: " ++ m.doi ++ str "." else [])
      else if m.sourceType = str "book" then
        title ++ str ". " ++
        (if m.publisher ≠ [] then m.publisher ++ str "." else [])
      else
        str "'" ++ title ++ str "'. " ++
        (if m.url ≠ [] then str "Available at: " ++ m.url ++ str "." else []))))

/-- `toIEEE`, source lines 426-461. -/
def toIEEE (env : Env) (m : Metadata) : Option Str :=
  let fa := formatAuthorsIEEE m.author
  let title := jsOr m.title (str "Untitled")
  let c0 : Str := if fa ≠ [] then fa ++ str ", " else []
  some (jsTrim (c0 ++
    (if m.sourceType = str "webpage" ∨ m.sourceType = str "news" then
      str "\"" ++ title ++ str ",\" " ++
      (if m.publisher ≠ [] then m.publisher ++ str ". " else []) ++
      (if m.url ≠ [] then
        str "[Online]. Available: " ++ m.url ++ str "." ++
        (if m.includeAccessDate then
          str " [Accessed: " ++ getAccessDate env (str "ieee") ++ str "]."
        else [])
      else [])
    else if m.sourceType = str "journal" ∨ m.sourceType = str "article" then
      str "\"" ++ title ++ str ",\" " ++
      (if m.journal ≠ [] then m.journal ++ str ", " else []) ++
      (if m.volume ≠ [] then str "vol. " ++ m.volume ++ str ", " else []) ++
      (if m.issue ≠ [] then str "no. " ++ m.issue ++ str ", " else []) ++
      (if m.pages ≠ [] then str "pp. " ++ m.pages ++ str ", " else []) ++
      jsOr m.year (str "n.d.") ++ str "." ++
      (if m.doi ≠ [] then str " doi: " ++ m.doi ++ str "." else [])
    else if m.sourceType = str "book" then
      title ++ str ". " ++
      (if m.publisher ≠ [] then m.publisher ++ str ", " else []) ++
      jsOr m.year (str "n.d.") ++ str "."
    else
      str "\"" ++ title ++ str ".\" " ++
      (if m.url ≠ [] then str "[Online]. Available: " ++ m.url ++ str "."
      else []))))

/-- `format`, source lines 485-502. -/
def format (env : Env) (m : Metadata) (style : Str) : Option Str :=
  if style = str "bibtex" then toBibTeX env m
  else if style = str "apa" then toAPA env m
  else if style = str "mla" then toMLA env m
  else if style = str "chicago" then toChicago env m
  else if style = str "harvard" then toHarvard env m
  else if style = str "ieee" then toIEEE env m
  else toBibTeX env m

/-- The last character, when present, is non-whitespace (used to show the
final `trim` leaves a rendered tail untouched). -/
def EndsNonWs (s : Str) : Prop := ∀ d, s.getLast? = some d → isWsChar d = false

/-- The style's own leading title clause when the author clause is omitted:
MLA, Chicago and IEEE quote the title except in the book branch. -/
def titleLead (m : Metadata) : Str :=
  if m.sourceType = str "book" then jsOr m.title (str "Untitled")
  else '"' :: jsOr m.title (str "Untitled")

/-! ### Concrete records and environments used by witnesses -/

/-- The §4.1/§8 example record: author `"Smith, John"`,
title `"Machine Learning Fundamentals"`, year `"2024"`. -/
def smithMeta : Metadata :=
  { author := str "Smith, John"
    title := str "Machine Learning Fundamentals"
    year := str "2024" }

/-- The record with its missing fields replaced by the documented defaults
(`"unknown"` author, `"untitled"` title, current year). -/
def fillKeyDefaults (nowYear : Str) (m : Metadata) : Metadata :=
  { m with
    author := jsOr m.author (str "unknown")
    title := jsOr m.title (str "untitled")
    year := jsOr m.year nowYear }

/-- `t` does not occur as a contiguous substring of `s`. -/
def NoOcc (t s : Str) : Prop := ¬ t <:+: s

/-- The first character, when present, is not a letter. -/
def HeadNonAlpha (s : Str) : Prop := ∀ c, s.head? = some c → isAlphaChar c = false

/-- The last character, when present, is not a letter. -/
def LastNonAlpha (s : Str) : Prop := ∀ c, s.getLast? = some c → isAlphaChar c = false

/-- Every literal text fragment the renderers and author/date helpers can
emit (other than field values, rendered dates and the BibTeX key). -/
def litPool : List Str :=
  [str ", ", str " & ", str ", & ", str ", ... ", str " and ", str ", and ",
    str ", et al.", str " et al.", str " ", str ". ", str ".",
    str " (", str "). ", str "(", str ")", str ") ", str "): ",
    str "https://doi.org/", str ". https://doi.org/",
    str "\"", str ".\" ", str ",\" ", str "vol. ", str "no. ", str ", no. ",
    str "pp. ", str ", pp. ", str " doi: ", str " Accessed ", str ", ",
    str "'", str "', ", str "'. ", str "Available at: ", str "URL",
    str " (Accessed: ", str "[Online]. Available: ", str " [Accessed: ",
    str "].", str "Unknown Author", str "Untitled", str "n.d.",
    str "@", str "\x7b", str "\x7d", str ",\n", str "\n\x7d",
    str "online", str "article", str "book", str "misc",
    str "  author = \x7b", str "  title = \x7b", str "  year = \x7b",
    str "  url = \x7b", str "  publisher = \x7b", str "  journal = \x7b",
    str "  volume = \x7b", str "  number = \x7b", str "  pages = \x7b",
    str "  doi = \x7b", str "  isbn = \x7b", str "  urldate = \x7b"]

/-- A forbidden token suitable for the injection-freedom argument: purely
alphabetic, at least 3 characters, and not occurring in any literal fragment
of the renderers (`"undefined"` and `"NaN"` qualify). -/
def okToken (t : Str) : Prop :=
  t.all isAlphaChar = true ∧ 3 ≤ t.length ∧ ∀ l ∈ litPool, NoOcc t l

/-- None of the record's concatenated field values contains the token. -/
def CleanFields (t : Str) (m : Metadata) : Prop :=
  NoOcc t m.title ∧ NoOcc t m.author ∧ NoOcc t m.date ∧ NoOcc t m.year ∧
    NoOcc t m.url ∧ NoOcc t m.publisher ∧ NoOcc t m.doi ∧ NoOcc t m.isbn ∧
    NoOcc t m.journal ∧ NoOcc t m.volume ∧ NoOcc t m.issue ∧ NoOcc t m.pages

/-- None of the environment's rendered date strings contains the token. -/
def CleanEnv (t : Str) (env : Env) : Prop :=
  NoOcc t env.accessMla ∧ NoOcc t env.accessLong ∧ NoOcc t env.isoDate ∧
    ∀ d r, env.parse d = some r → NoOcc t r.1 ∧ NoOcc t r.2

/-- A concrete host environment (an arbitrary fixed day, with a date parser
that rejects every date string), used to instantiate witnesses. -/
def envA : Env :=
  { nowYear := str "2024"
    accessMla := str "5 Oct. 2024"
    accessLong := str "October 5, 2024"
    isoDate := str "2024-10-05"
    parse := fun _ => none
    dateFullYear := fun _ => str "NaN" }

/-- A record whose author field, when present, yields at least one entry
after splitting and filtering.  This excludes exactly the degenerate author
strings (such as `";"` or `" and "`) on which the source throws a
`TypeError` in the `apa`, `mla` and `chicago` author branches. -/
def authorOk (m : Metadata) : Prop :=
  m.author = [] ∨ authorEntries m.author ≠ []

instance (m : Metadata) : Decidable (authorOk m) := by
  unfold authorOk; infer_instance

/-- Boolean side conditions qualifying a literal as a junction separator:
pool membership, non-letter first and last characters, non-empty. -/
def litSideB (mid : Str) : Bool :=
  decide (mid ∈ litPool) && !(mid.head?.map isAlphaChar).getD false &&
    !(mid.getLast?.map isAlphaChar).getD false && !mid.isEmpty

/-! ### Basic lemmas about `jsOr` and non-occurring replacement patterns -/

theorem jsOr_of_ne (v d : Str) (h : v ≠ []) : jsOr v d = v := by
  simp [jsOr, h]

theorem jsOr_nil (d : Str) : jsOr [] d = d := by simp [jsOr]

theorem jsOr_jsOr (v d : Str) : jsOr (jsOr v d) d = jsOr v d := by
  by_cases h : v = [] <;> simp [jsOr, h]

theorem jsOr_ne_nil (v d : Str) (h : d ≠ []) : jsOr v d ≠ [] := by
  by_cases hv : v = [] <;> simp [jsOr, hv, h]

theorem not_occ_tail {t : Str} {c : Char} {rest : Str}
    (h : ¬ t <:+: c :: rest) : ¬ t <:+: rest := by
  rintro ⟨p, q, hpq⟩
  exact h ⟨c :: p, q, by simp [hpq]⟩

theorem not_occ_of_pref {t s : Str} (h : ¬ t <:+: s) : ¬ t <+: s := by
  rintro ⟨u, rfl⟩
  exact h ⟨[], u, by simp⟩

theorem replaceAllF_not_occ (pat rep : Str) :
    ∀ fuel s, ¬ pat <:+: s → replaceAllF pat rep fuel s = s := by
  intro fuel
  induction fuel with
  | zero => intro s _; cases s <;> rfl
  | succ n ih =>
    intro s h
    cases s with
    | nil => rfl
    | cons c rest =>
      simp only [replaceAllF]
      rw [if_neg, ih rest (not_occ_tail h)]
      rintro ⟨-, hpre⟩
      exact not_occ_of_pref h (( List.isPrefixOf_iff_prefix).1 hpre)

theorem replaceAll_not_occ (pat rep s : Str) (h : ¬ pat <:+: s) :
    replaceAll pat rep s = s :=
  replaceAllF_not_occ pat rep s.length s h

theorem matchShorttitle_not_occ (s : Str) (h : ¬ str "shorttitle(" <:+: s) :
    matchShorttitle s = none := by
  simp only [matchShorttitle]
  rw [if_neg]
  intro hpre
  exact not_occ_of_pref h (( List.isPrefixOf_iff_prefix).1 hpre)

theorem replaceShorttitleF_not_occ (title : Str) :
    ∀ fuel s, ¬ str "shorttitle(" <:+: s → replaceShorttitleF title fuel s = s := by
  intro fuel
  induction fuel with
  | zero => intro s _; cases s <;> rfl
  | succ n ih =>
    intro s h
    cases s with
    | nil => rfl
    | cons c rest =>
      simp only [replaceShorttitleF, matchShorttitle_not_occ _ h]
      rw [ih rest (not_occ_tail h)]

theorem replaceShorttitle_not_occ (title s : Str) (h : ¬ str "shorttitle(" <:+: s) :
    replaceShorttitle title s = s :=
  replaceShorttitleF_not_occ title s.length s h

/-- On a format string containing none of the six literal tokens, the raw key
is just the `shorttitle` replacement followed by separator cleanup. -/
theorem rawKey_no_literal_tokens (now a t y f : Str)
    (h1 : ¬ str "auth.lower" <:+: f) (h2 : ¬ str "auth.upper" <:+: f)
    (h3 : ¬ str "Auth" <:+: f) (h4 : ¬ str "year" <:+: f)
    (h5 : ¬ str "shortyear" <:+: f) (h6 : ¬ str "title.lower" <:+: f) :
    rawKeyFromFormat now a t y f =
      cleanupKey (replaceShorttitle (jsOr t (str "untitled")) f) := by
  simp only [rawKeyFromFormat]
  rw [replaceAll_not_occ _ _ _ h1, replaceAll_not_occ _ _ _ h2,
    replaceAll_not_occ _ _ _ h3, replaceAll_not_occ _ _ _ h4,
    replaceAll_not_occ _ _ _ h5, replaceAll_not_occ _ _ _ h6]

/-- When the year field is present (non-empty), the generated key does not
depend on the clock. -/
theorem generateKeyFromFormat_now_irrel (n1 n2 : Str) (m : Metadata) (f : Str)
    (h : m.year ≠ []) :
    generateKeyFromFormat n1 m f = generateKeyFromFormat n2 m f := by
  simp only [generateKeyFromFormat, rawKeyFromFormat]
  rw [jsOr_of_ne m.year n1 h, jsOr_of_ne m.year n2 h]

/-! ### Claims C1-C4 and C9 (key generation) -/

/-- C1 (counterexample): with the default format, the example record does
*not* produce the key `smith_mac_lea_2024` stated by the spec — the third
title word `Fundamentals` also contributes a `fun` fragment. -/
theorem default_format_example_ne_spec_key :
    generateKey (str "2030") smithMeta ≠ str "smith_mac_lea_2024" := by decide

/-- C1 (amended): for the record with author `"Smith, John"`, title
`"Machine Learning Fundamentals"`, year `"2024"`, the default format
`auth.lower + shorttitle(3,3) + year` — via `generateKey` or equivalently
`generateKeyFromFormat` — yields exactly `smith_mac_lea_fun_2024`
(`shorttitle(3,3)` keeps the first three title words, so the fragment `fun`
for `Fundamentals` is included). -/
theorem default_format_example_key_eval (nowYear : Str) :
    generateKey nowYear smithMeta = str "smith_mac_lea_fun_2024" ∧
      generateKeyFromFormat nowYear smithMeta defaultKeyFormat =
        str "smith_mac_lea_fun_2024" := by
  have h := generateKeyFromFormat_now_irrel nowYear (str "0") smithMeta
    defaultKeyFormat (by decide)
  exact ⟨h.trans (by decide), h.trans (by decide)⟩

/-- C2 (counterexample): on a record titled `"A Study of Algorithms"`, the
token `shorttitle(3,3)` does *not* expand to `stu_alg`: the word `A` survives
the filtering as `a`, the third word is `of`, and `Algorithms` is beyond the
first three words. -/
theorem shorttitle_example_ne_stu_alg :
    generateKeyFromFormat (str "0") { title := str "A Study of Algorithms" }
      (str "shorttitle(3,3)") ≠ str "stu_alg" := by decide

/-- C2 (amended): for every record titled `"A Study of Algorithms"`, the token
`shorttitle(3,3)` expands to exactly `a_stu_of`: each of the first 3
whitespace-delimited words is lowercased, stripped to `[a-z]`, truncated to 3
characters, empty survivors dropped and the rest joined by `_` — so `A`
yields the non-empty word `a` and is kept, and `Algorithms` is not among the
first three words. -/
theorem shorttitle_first_three_words (nowYear : Str) (m : Metadata)
    (h : m.title = str "A Study of Algorithms") :
    generateKeyFromFormat nowYear m (str "shorttitle(3,3)") = str "a_stu_of" := by
  simp only [generateKeyFromFormat]
  rw [rawKey_no_literal_tokens nowYear m.author m.title m.year
    (str "shorttitle(3,3)") (by decide) (by decide) (by decide) (by decide)
    (by decide) (by decide), h]
  decide

/-- C2 (witness). -/
theorem shorttitle_first_three_words_witness :
    ({ title := str "A Study of Algorithms" } : Metadata).title =
        str "A Study of Algorithms" ∧
      generateKeyFromFormat (str "0") { title := str "A Study of Algorithms" }
        (str "shorttitle(3,3)") = str "a_stu_of" :=
  ⟨rfl, shorttitle_first_three_words (str "0") _ rfl⟩

/-- C3 (code bug): on a record with year `"2024"`, the format `shortyear`
yields `short2024`, not the 2-digit year `24` promised by the source's own
doc comment (line 21) and the README: the global `year` replacement (line 52)
runs first and consumes the `year` suffix of `shortyear`, so the `shortyear`
replacement (line 53) never fires. -/
theorem shortyear_token_clobbered_by_year (nowYear : Str) :
    generateKeyFromFormat nowYear { year := str "2024" } (str "shortyear") =
        str "short2024" ∧
      generateKeyFromFormat nowYear { year := str "2024" } (str "shortyear") ≠
        str "24" := by
  have h := generateKeyFromFormat_now_irrel nowYear (str "0")
    { year := str "2024" } (str "shortyear") (by decide)
  constructor
  · exact h.trans (by decide)
  · rw [h]; decide

/-- C4: `generateKeyFromFormat` is total (it is a plain function in this
model, with no failing path); missing author/title/year behave exactly as the
documented defaults substituted up front; an empty key after substitution and
cleanup falls back to the literal `citation`; and the result is never the
empty string. -/
theorem generateKeyFromFormat_total_defaults (nowYear : Str) (m : Metadata)
    (f : Str) :
    generateKeyFromFormat nowYear m f =
        generateKeyFromFormat nowYear (fillKeyDefaults nowYear m) f ∧
      (rawKeyFromFormat nowYear m.author m.title m.year f = [] →
        generateKeyFromFormat nowYear m f = str "citation") ∧
      generateKeyFromFormat nowYear m f ≠ [] := by
  refine ⟨?_, ?_, ?_⟩
  · simp only [generateKeyFromFormat, rawKeyFromFormat, fillKeyDefaults,
      jsOr_jsOr]
  · intro h
    simp only [generateKeyFromFormat, h, jsOr_nil]
  · exact jsOr_ne_nil _ _ (by decide)

/-- C4 (witness): the empty format produces an empty raw key, hence the
`citation` fallback. -/
theorem generateKeyFromFormat_total_defaults_witness :
    rawKeyFromFormat (str "2024") (Metadata.author {}) (Metadata.title {})
        (Metadata.year {}) (str "") = [] ∧
      generateKeyFromFormat (str "2024") {} (str "") = str "citation" :=
  ⟨by decide,
    (generateKeyFromFormat_total_defaults (str "2024") {} (str "")).2.1
      (by decide)⟩

/-- C9 (counterexample): key generation is *not* independent of the call
time: on a record with no year field, the format `year` substitutes the
current calendar year, so calls in different years disagree. -/
theorem generateKeyFromFormat_depends_on_clock :
    generateKeyFromFormat (str "2024") {} (str "year") ≠
      generateKeyFromFormat (str "2025") {} (str "year") := by decide

/-- C9 (amended): for a fixed current year the key is a pure function of
`(metadata, format)`; and whenever the record's year field is present, the
key is additionally independent of the time of the call. -/
theorem generateKeyFromFormat_deterministic_of_year (n1 n2 : Str)
    (m : Metadata) (f : Str) (h : m.year ≠ []) :
    generateKeyFromFormat n1 m f = generateKeyFromFormat n2 m f :=
  generateKeyFromFormat_now_irrel n1 n2 m f h

/-! ### Trim and whitespace lemmas -/

theorem dropWhile_append_of_mem {p : Char → Bool} (a b : Str) (c : Char)
    (hc : c ∈ a) (hpc : p c = false) :
    (a ++ b).dropWhile p = a.dropWhile p ++ b := by
  induction a with
  | nil => cases hc
  | cons x a' ih =>
    by_cases hx : p x
    · have hca' : c ∈ a' := by
        rcases List.mem_cons.mp hc with rfl | h
        · rw [hpc] at hx; cases hx
        · exact h
      simp [List.dropWhile_cons, hx, ih hca']
    · simp [List.dropWhile_cons, hx]

theorem jsTrimLeft_append_of_mem (a b : Str) (c : Char) (hc : c ∈ a)
    (hw : isWsChar c = false) : jsTrimLeft (a ++ b) = jsTrimLeft a ++ b :=
  dropWhile_append_of_mem a b c hc hw

theorem jsTrimRight_append_of_mem (a b : Str) (c : Char) (hc : c ∈ b)
    (hw : isWsChar c = false) : jsTrimRight (a ++ b) = a ++ jsTrimRight b := by
  unfold jsTrimRight
  rw [List.reverse_append,
    dropWhile_append_of_mem b.reverse a.reverse c (by simpa using hc) hw,
    List.reverse_append, List.reverse_reverse]

theorem jsTrimRight_eq_self (s : Str)
    (h : ∀ c, s.getLast? = some c → isWsChar c = false) : jsTrimRight s = s := by
  unfold jsTrimRight
  cases hs : s.reverse with
  | nil => rw [List.reverse_eq_nil_iff.mp hs]; rfl
  | cons c rest =>
    have hlast : s.getLast? = some c := by
      rw [← List.head?_reverse s, hs]; rfl
    rw [List.dropWhile_cons, if_neg (by simp [h c hlast]), ← hs,
      List.reverse_reverse]

theorem jsTrimLeft_eq_self (s : Str)
    (h : ∀ c, s.head? = some c → isWsChar c = false) : jsTrimLeft s = s := by
  unfold jsTrimLeft
  cases s with
  | nil => rfl
  | cons c rest => rw [List.dropWhile_cons, if_neg (by simp [h c rfl])]

theorem getLast?_append_right (a b : Str) (hb : b ≠ []) :
    (a ++ b).getLast? = b.getLast? := List.getLast?_append_of_ne_nil a hb

/-- Appending a chunk that ends in non-whitespace commutes with `jsTrim`,
provided the left part also ends in non-whitespace and contains some
non-whitespace character. -/
theorem jsTrim_append_both (a b : Str) (c : Char) (hca : c ∈ a)
    (hcw : isWsChar c = false)
    (hal : ∀ d, a.getLast? = some d → isWsChar d = false)
    (hbl : ∀ d, b.getLast? = some d → isWsChar d = false) (hb : b ≠ []) :
    jsTrim (a ++ b) = jsTrim a ++ b := by
  unfold jsTrim
  rw [jsTrimRight_eq_self a hal, jsTrimRight_eq_self (a ++ b)
    (by rw [getLast?_append_right a b hb]; exact hbl),
    jsTrimLeft_append_of_mem a b c hca hcw]

/-! ### Claim C8 (BibTeX entry types) -/

/-- C8: the BibTeX entry type is `misc` whenever `sourceType` is
`article`/`journal` and the `journal` field is absent or empty, and otherwise
follows the fixed mapping `webpage→online, article→article, book→book,
journal→article, news→article`, with `misc` for any other source type. -/
theorem getBibTeXType_spec (st : Str) (m : Metadata) :
    getBibTeXType st m =
      if (st = str "article" ∨ st = str "journal") ∧ m.journal = [] then
        str "misc"
      else if st = str "webpage" then str "online"
      else if st = str "article" then str "article"
      else if st = str "book" then str "book"
      else if st = str "journal" then str "article"
      else if st = str "news" then str "article"
      else str "misc" := by
  unfold getBibTeXType
  by_cases hmisc : (st = str "article" ∨ st = str "journal") ∧ m.journal = []
  · rw [if_pos hmisc, if_pos hmisc]
  · rw [if_neg hmisc, if_neg hmisc]
    simp only [bibtexTypeMap, List.lookup]
    by_cases h1 : st = str "webpage"
    · subst h1; simp
    · rw [if_neg h1, beq_false_of_ne (by simpa [eq_comm] using h1)]
      by_cases h2 : st = str "article"
      · subst h2; simp
      · rw [if_neg h2, beq_false_of_ne (by simpa [eq_comm] using h2)]
        by_cases h3 : st = str "book"
        · subst h3; simp
        · rw [if_neg h3, beq_false_of_ne (by simpa [eq_comm] using h3)]
          by_cases h4 : st = str "journal"
          · subst h4; simp
          · rw [if_neg h4, beq_false_of_ne (by simpa [eq_comm] using h4)]
            by_cases h5 : st = str "news"
            · subst h5; simp
            · rw [if_neg h5, beq_false_of_ne (by simpa [eq_comm] using h5)]

/-! ### Totality of author formatting -/

theorem formatAuthors_isSome (authors style : Str)
    (h : authors = [] ∨ authorEntries authors ≠ []) :
    (formatAuthors authors style).isSome := by
  rcases h with h | h
  · simp [formatAuthors, h]
  · by_cases ha : authors = []
    · simp [formatAuthors, ha]
    · simp only [formatAuthors, if_neg ha]
      cases hl : authorEntries authors with
      | nil => exact absurd hl h
      | cons a rest =>
        split_ifs
        · simp
        · cases rest with
          | nil => simp
          | cons b r2 =>
            cases r2 with
            | nil => simp
            | cons c r3 =>
              dsimp only
              split_ifs <;> simp
        · cases rest with
          | nil => simp
          | cons b r2 => cases r2 <;> simp
        · cases rest with
          | nil => simp
          | cons b r2 =>
            dsimp only
            split_ifs <;> simp
        · simp

theorem formatAuthors_bibtex_isSome (authors : Str) :
    (formatAuthors authors (str "bibtex")).isSome := by
  by_cases ha : authors = []
  · simp [formatAuthors, ha]
  · simp [formatAuthors, if_neg ha]

theorem formatAuthors_harvard_isSome (authors : Str) :
    (formatAuthors authors (str "harvard")).isSome := by
  by_cases ha : authors = []
  · simp [formatAuthors, ha]
  · simp only [formatAuthors, if_neg ha]
    rw [if_neg (by decide), if_neg (by decide), if_neg (by decide),
      if_neg (by decide)]
    simp

theorem toBibTeX_isSome (env : Env) (m : Metadata) : (toBibTeX env m).isSome := by
  unfold toBibTeX
  obtain ⟨fa, hfa⟩ :=
    Option.isSome_iff_exists.mp (formatAuthors_bibtex_isSome m.author)
  simp [hfa]

theorem toAPA_isSome (env : Env) (m : Metadata) (h : authorOk m) :
    (toAPA env m).isSome := by
  unfold toAPA
  obtain ⟨fa, hfa⟩ :=
    Option.isSome_iff_exists.mp (formatAuthors_isSome m.author (str "apa") h)
  simp [hfa]

theorem toMLA_isSome (env : Env) (m : Metadata) (h : authorOk m) :
    (toMLA env m).isSome := by
  unfold toMLA
  obtain ⟨fa, hfa⟩ :=
    Option.isSome_iff_exists.mp (formatAuthors_isSome m.author (str "mla") h)
  simp [hfa]

theorem toChicago_isSome (env : Env) (m : Metadata) (h : authorOk m) :
    (toChicago env m).isSome := by
  unfold toChicago
  obtain ⟨fa, hfa⟩ :=
    Option.isSome_iff_exists.mp (formatAuthors_isSome m.author (str "chicago") h)
  simp [hfa]

theorem toHarvard_isSome (env : Env) (m : Metadata) : (toHarvard env m).isSome := by
  unfold toHarvard
  obtain ⟨fa, hfa⟩ :=
    Option.isSome_iff_exists.mp (formatAuthors_harvard_isSome m.author)
  simp [hfa]

theorem toIEEE_isSome (env : Env) (m : Metadata) : (toIEEE env m).isSome := rfl

theorem format_isSome (env : Env) (m : Metadata) (style : Str)
    (h : authorOk m) : (format env m style).isSome := by
  unfold format
  split_ifs
  · exact toBibTeX_isSome env m
  · exact toAPA_isSome env m h
  · exact toMLA_isSome env m h
  · exact toChicago_isSome env m h
  · exact toHarvard_isSome env m
  · exact toIEEE_isSome env m
  · exact toBibTeX_isSome env m

/-! ### The Harvard `URL` placeholder -/

theorem lastNonWs_of_append_end (s x e : Str) (h : s = x ++ e) (he : e ≠ [])
    (hew : ∀ d, e.getLast? = some d → isWsChar d = false) :
    ∀ d, s.getLast? = some d → isWsChar d = false := by
  intro d hd
  rw [h, getLast?_append_right x e he] at hd
  exact hew d hd

/-- Factor a `jsTrim` over an append whose right part is kept verbatim. -/
theorem jsTrim_factor (y rest : Str) (c : Char) (hc : c ∈ y)
    (hw : isWsChar c = false)
    (hl : ∀ d, (y ++ rest).getLast? = some d → isWsChar d = false) :
    jsTrim (y ++ rest) = jsTrimLeft y ++ rest := by
  unfold jsTrim
  rw [jsTrimRight_eq_self _ hl, jsTrimLeft_append_of_mem y rest c hc hw]

/-- The Harvard webpage branch renders the literal placeholder `URL` when the
url field is missing. -/
theorem toHarvard_missing_url_placeholder (env : Env) (m : Metadata)
    (hst : m.sourceType = str "webpage") (hurl : m.url = []) :
    ∃ pre post,
      toHarvard env m = some (pre ++ str "Available at: URL" ++ post) := by
  obtain ⟨fa, hfa⟩ :=
    Option.isSome_iff_exists.mp (formatAuthors_harvard_isSome m.author)
  have key : toHarvard env m = some (jsTrim
      ((jsOr fa (str "Unknown Author") ++ (str " (" ++ (jsOr m.year (str "n.d.")
          ++ (str ") " ++ (str "'" ++ (jsOr m.title (str "Untitled") ++
            (str "', " ++
              (if m.publisher ≠ [] then m.publisher ++ str ", " else [])))))))) ++
        (str "Available at: " ++ (str "URL" ++
          ((if m.includeAccessDate then
              str " (Accessed: " ++ getAccessDate env (str "harvard") ++ str ")"
            else []) ++ str "."))))) := by
    simp only [toHarvard, hfa]
    rw [if_pos (Or.inl hst), hurl, jsOr_nil]
    simp [List.append_assoc]
  refine ⟨jsTrimLeft (jsOr fa (str "Unknown Author") ++ (str " (" ++
      (jsOr m.year (str "n.d.") ++ (str ") " ++ (str "'" ++
        (jsOr m.title (str "Untitled") ++ (str "', " ++
          (if m.publisher ≠ [] then m.publisher ++ str ", " else [])))))))),
    (if m.includeAccessDate then
        str " (Accessed: " ++ getAccessDate env (str "harvard") ++ str ")"
      else []) ++ str ".", ?_⟩
  rw [key, jsTrim_factor _ _ '(' (by simp [str]) (by decide)]
  · rw [show str "Available at: URL" = str "Available at: " ++ str "URL" from rfl]
    simp [List.append_assoc]
  · apply lastNonWs_of_append_end _
      ((jsOr fa (str "Unknown Author") ++ (str " (" ++ (jsOr m.year (str "n.d.")
          ++ (str ") " ++ (str "'" ++ (jsOr m.title (str "Untitled") ++
            (str "', " ++
              (if m.publisher ≠ [] then m.publisher ++ str ", " else [])))))))) ++
        (str "Available at: " ++ (str "URL" ++
          (if m.includeAccessDate then
              str " (Accessed: " ++ getAccessDate env (str "harvard") ++ str ")"
            else []))))
      (str ".") _ (by decide) (by decide)
    simp [List.append_assoc]

/-- C9 (witness). -/
theorem generateKeyFromFormat_deterministic_of_year_witness :
    (smithMeta.year ≠ []) ∧
      generateKeyFromFormat (str "2024") smithMeta defaultKeyFormat =
        generateKeyFromFormat (str "2031") smithMeta defaultKeyFormat :=
  ⟨by decide,
    generateKeyFromFormat_deterministic_of_year (str "2024") (str "2031")
      smithMeta defaultKeyFormat (by decide)⟩

/-! ### Claim C7 (failure semantics of rendering) -/

/-- C7 (counterexample): the Harvard webpage branch does *not* restrict
itself to the fallback texts `Untitled`/`Unknown Author`/`n.d.` — on a
record whose url field is missing it renders the literal placeholder `URL`
inside an `Available at:` clause. -/
theorem toHarvard_renders_URL_placeholder :
    toHarvard envA { sourceType := str "webpage" } =
        some (str "Unknown Author (n.d.) 'Untitled', Available at: URL.") ∧
      str "Available at: URL" <:+:
        str "Unknown Author (n.d.) 'Untitled', Available at: URL." ∧
      ({ sourceType := str "webpage" } : Metadata).url = [] :=
  ⟨by decide, by decide, rfl⟩

/-- C7 (amended): rendering never throws provided the author field, when
present, splits into at least one author entry — the source's
`apa`/`mla`/`chicago` author branches index an empty author array and throw
a `TypeError` otherwise; each branch substitutes the documented fallback
texts and omits clauses whose fields are absent, except that the Harvard
webpage branch renders the literal placeholder `URL` for a missing url. -/
theorem format_never_throws :
    (∀ (env : Env) (m : Metadata) (style : Str), authorOk m →
      (format env m style).isSome) ∧
    ∀ (env : Env) (m : Metadata), m.sourceType = str "webpage" → m.url = [] →
      ∃ pre post,
        toHarvard env m = some (pre ++ str "Available at: URL" ++ post) :=
  ⟨fun env m style h => format_isSome env m style h,
    fun env m hst hurl => toHarvard_missing_url_placeholder env m hst hurl⟩

/-- C7 (witness). -/
theorem format_never_throws_witness :
    authorOk ({ sourceType := str "webpage" } : Metadata) ∧
      (format envA { sourceType := str "webpage" } (str "apa")).isSome ∧
      ∃ pre post,
        toHarvard envA { sourceType := str "webpage" } =
          some (pre ++ str "Available at: URL" ++ post) :=
  ⟨by decide,
    format_never_throws.1 envA { sourceType := str "webpage" } (str "apa")
      (by decide),
    format_never_throws.2 envA { sourceType := str "webpage" } rfl rfl⟩

/-! ### Claim C10 (missing-author behaviour per style) -/

theorem head_nonws_of_trimLeft_eq (s : Str) (h : jsTrimLeft s = s) (c : Char)
    (hc : s.head? = some c) : isWsChar c = false := by
  cases s with
  | nil => cases hc
  | cons d t =>
    injection hc with hc'
    subst hc'
    by_contra hw
    rw [Bool.not_eq_false] at hw
    unfold jsTrimLeft at h
    rw [List.dropWhile_cons, if_pos hw] at h
    have := congrArg List.length h
    have hle : (t.dropWhile isWsChar).length ≤ t.length :=
      (List.dropWhile_sublist isWsChar).length_le
    simp at this
    omega

theorem jsTrim_pref (a b : Str) (ca : Char) (hhead : a.head? = some ca)
    (hca : isWsChar ca = false) (cb : Char) (hcb : cb ∈ b)
    (hw : isWsChar cb = false) : jsTrim (a ++ b) = a ++ jsTrimRight b := by
  unfold jsTrim
  rw [jsTrimRight_append_of_mem a b cb hcb hw]
  apply jsTrimLeft_eq_self
  intro d hd
  have ha : a ≠ [] := by intro hnil; rw [hnil] at hhead; cases hhead
  rw [List.head?_append_of_ne_nil _ ha, hhead] at hd
  injection hd with hd'
  subst hd'
  exact hca

theorem pref_one (a rest : Str) (ca : Char) (hhead : a.head? = some ca)
    (hca : isWsChar ca = false) (cb : Char) (hcb : cb ∈ rest)
    (hw : isWsChar cb = false) : a <+: jsTrim (a ++ rest) := by
  rw [jsTrim_pref a rest ca hhead hca cb hcb hw]
  exact ⟨_, rfl⟩

theorem pref_two (q t rest : Str) (hq : q ≠ []) (cq : Char)
    (hqh : q.head? = some cq) (hcq : isWsChar cq = false) (cb : Char)
    (hcb : cb ∈ rest) (hw : isWsChar cb = false) :
    (q ++ t) <+: jsTrim (q ++ (t ++ rest)) := by
  rw [← List.append_assoc]
  exact pref_one (q ++ t) rest cq
    (by rw [List.head?_append_of_ne_nil _ hq]; exact hqh) hcq cb hcb hw

theorem toAPA_missing_author (env : Env) (m : Metadata) (h : m.author = []) :
    ∃ s, toAPA env m = some s ∧ str "Unknown Author (" <+: s := by
  have hfa : formatAuthors m.author (str "apa") = some [] := by rw [h]; rfl
  simp only [toAPA, hfa]
  refine ⟨_, rfl, ?_⟩
  rw [jsOr_nil]
  rw [show str "Unknown Author (" = str "Unknown Author" ++ str " (" from rfl]
  simp only [List.append_assoc]
  exact pref_two (str "Unknown Author") (str " (") _ (by decide) 'U' rfl
    (by decide) ')'
    (List.mem_append_right _ (List.mem_append_left _ (by decide))) (by decide)

theorem toHarvard_missing_author (env : Env) (m : Metadata) (h : m.author = []) :
    ∃ s, toHarvard env m = some s ∧ str "Unknown Author (" <+: s := by
  have hfa : formatAuthors m.author (str "harvard") = some [] := by rw [h]; rfl
  simp only [toHarvard, hfa]
  refine ⟨_, rfl, ?_⟩
  rw [jsOr_nil]
  rw [show str "Unknown Author (" = str "Unknown Author" ++ str " (" from rfl]
  simp only [List.append_assoc]
  exact pref_two (str "Unknown Author") (str " (") _ (by decide) 'U' rfl
    (by decide) ')'
    (List.mem_append_right _ (List.mem_append_left _ (by decide))) (by decide)

theorem toMLA_missing_author (env : Env) (m : Metadata) (h : m.author = [])
    (htitle : jsTrimLeft (jsOr m.title (str "Untitled")) =
      jsOr m.title (str "Untitled")) :
    ∃ s, toMLA env m = some s ∧ titleLead m <+: s := by
  have hfa : formatAuthors m.author (str "mla") = some [] := by rw [h]; rfl
  simp only [toMLA, hfa]
  refine ⟨_, rfl, ?_⟩
  rw [if_neg (by simp), List.nil_append]
  unfold titleLead
  by_cases h1 : m.sourceType = str "webpage" ∨ m.sourceType = str "news"
  · rw [if_pos h1, if_neg (by rcases h1 with h1 | h1 <;> rw [h1] <;> decide)]
    simp only [List.append_assoc]
    exact pref_two (str "\"") (jsOr m.title (str "Untitled")) _ (by decide)
      '"' rfl (by decide) '.' (List.mem_append_left _ (by decide)) (by decide)
  · rw [if_neg h1]
    by_cases h2 : m.sourceType = str "journal" ∨ m.sourceType = str "article"
    · rw [if_pos h2, if_neg (by rcases h2 with h2 | h2 <;> rw [h2] <;> decide)]
      simp only [List.append_assoc]
      exact pref_two (str "\"") (jsOr m.title (str "Untitled")) _ (by decide)
        '"' rfl (by decide) '.' (List.mem_append_left _ (by decide)) (by decide)
    · rw [if_neg h2]
      by_cases h3 : m.sourceType = str "book"
      · rw [if_pos h3, if_pos h3]
        cases ht : jsOr m.title (str "Untitled") with
        | nil => exact absurd ht (jsOr_ne_nil _ _ (by decide))
        | cons c t0 =>
          rw [ht] at htitle
          simp only [List.append_assoc]
          exact pref_one (c :: t0) _ c rfl
            (head_nonws_of_trimLeft_eq _ htitle c rfl) '.'
            (List.mem_append_left _ (by decide)) (by decide)
      · rw [if_neg h3, if_neg h3]
        simp only [List.append_assoc]
        exact pref_two (str "\"") (jsOr m.title (str "Untitled")) _ (by decide)
          '"' rfl (by decide) '.' (List.mem_append_left _ (by decide))
          (by decide)

theorem toChicago_missing_author (env : Env) (m : Metadata) (h : m.author = [])
    (htitle : jsTrimLeft (jsOr m.title (str "Untitled")) =
      jsOr m.title (str "Untitled")) :
    ∃ s, toChicago env m = some s ∧ titleLead m <+: s := by
  have hfa : formatAuthors m.author (str "chicago") = some [] := by rw [h]; rfl
  simp only [toChicago, hfa]
  refine ⟨_, rfl, ?_⟩
  rw [if_neg (by simp), List.nil_append]
  unfold titleLead
  by_cases h1 : m.sourceType = str "webpage" ∨ m.sourceType = str "news"
  · rw [if_pos h1, if_neg (by rcases h1 with h1 | h1 <;> rw [h1] <;> decide)]
    simp only [List.append_assoc]
    exact pref_two (str "\"") (jsOr m.title (str "Untitled")) _ (by decide)
      '"' rfl (by decide) '.' (List.mem_append_left _ (by decide)) (by decide)
  · rw [if_neg h1]
    by_cases h2 : m.sourceType = str "journal" ∨ m.sourceType = str "article"
    · rw [if_pos h2, if_neg (by rcases h2 with h2 | h2 <;> rw [h2] <;> decide)]
      simp only [List.append_assoc]
      exact pref_two (str "\"") (jsOr m.title (str "Untitled")) _ (by decide)
        '"' rfl (by decide) '.' (List.mem_append_left _ (by decide)) (by decide)
    · rw [if_neg h2]
      by_cases h3 : m.sourceType = str "book"
      · rw [if_pos h3, if_pos h3]
        cases ht : jsOr m.title (str "Untitled") with
        | nil => exact absurd ht (jsOr_ne_nil _ _ (by decide))
        | cons c t0 =>
          rw [ht] at htitle
          simp only [List.append_assoc]
          exact pref_one (c :: t0) _ c rfl
            (head_nonws_of_trimLeft_eq _ htitle c rfl) '.'
            (List.mem_append_left _ (by decide)) (by decide)
      · rw [if_neg h3, if_neg h3]
        simp only [List.append_assoc]
        exact pref_two (str "\"") (jsOr m.title (str "Untitled")) _ (by decide)
          '"' rfl (by decide) '.' (List.mem_append_left _ (by decide))
          (by decide)

theorem toIEEE_missing_author (env : Env) (m : Metadata) (h : m.author = [])
    (htitle : jsTrimLeft (jsOr m.title (str "Untitled")) =
      jsOr m.title (str "Untitled")) :
    ∃ s, toIEEE env m = some s ∧ titleLead m <+: s := by
  simp only [toIEEE, h]
  refine ⟨_, rfl, ?_⟩
  rw [show formatAuthorsIEEE [] = [] from rfl, if_neg (by simp),
    List.nil_append]
  unfold titleLead
  by_cases h1 : m.sourceType = str "webpage" ∨ m.sourceType = str "news"
  · rw [if_pos h1, if_neg (by rcases h1 with h1 | h1 <;> rw [h1] <;> decide)]
    simp only [List.append_assoc]
    exact pref_two (str "\"") (jsOr m.title (str "Untitled")) _ (by decide)
      '"' rfl (by decide) ',' (List.mem_append_left _ (by decide)) (by decide)
  · rw [if_neg h1]
    by_cases h2 : m.sourceType = str "journal" ∨ m.sourceType = str "article"
    · rw [if_pos h2, if_neg (by rcases h2 with h2 | h2 <;> rw [h2] <;> decide)]
      simp only [List.append_assoc]
      exact pref_two (str "\"") (jsOr m.title (str "Untitled")) _ (by decide)
        '"' rfl (by decide) ',' (List.mem_append_left _ (by decide)) (by decide)
    · rw [if_neg h2]
      by_cases h3 : m.sourceType = str "book"
      · rw [if_pos h3, if_pos h3]
        cases ht : jsOr m.title (str "Untitled") with
        | nil => exact absurd ht (jsOr_ne_nil _ _ (by decide))
        | cons c t0 =>
          rw [ht] at htitle
          simp only [List.append_assoc]
          exact pref_one (c :: t0) _ c rfl
            (head_nonws_of_trimLeft_eq _ htitle c rfl) '.'
            (List.mem_append_left _ (by decide)) (by decide)
      · rw [if_neg h3, if_neg h3]
        simp only [List.append_assoc]
        exact pref_two (str "\"") (jsOr m.title (str "Untitled")) _ (by decide)
          '"' rfl (by decide) '.' (List.mem_append_left _ (by decide))
          (by decide)

/-- C10: when the author field is absent, APA and Harvard outputs begin with
the fallback `Unknown Author` (followed by its parenthesised date clause),
while MLA, Chicago and IEEE omit the author clause entirely and begin
directly with the style's own title clause (the possibly-fallback title,
quoted except in the book branch); in particular no style emits an empty
author clause followed by its separator punctuation.  The title is assumed
not to start with whitespace (otherwise the final `trim` shortens it). -/
theorem missing_author_per_style (env : Env) (m : Metadata)
    (hauthor : m.author = [])
    (htitle : jsTrimLeft (jsOr m.title (str "Untitled")) =
      jsOr m.title (str "Untitled")) :
    (∃ s, toAPA env m = some s ∧ str "Unknown Author (" <+: s) ∧
      (∃ s, toHarvard env m = some s ∧ str "Unknown Author (" <+: s) ∧
      (∃ s, toMLA env m = some s ∧ titleLead m <+: s) ∧
      (∃ s, toChicago env m = some s ∧ titleLead m <+: s) ∧
      (∃ s, toIEEE env m = some s ∧ titleLead m <+: s) :=
  ⟨toAPA_missing_author env m hauthor,
    toHarvard_missing_author env m hauthor,
    toMLA_missing_author env m hauthor htitle,
    toChicago_missing_author env m hauthor htitle,
    toIEEE_missing_author env m hauthor htitle⟩

/-! ### Claim C5 (access-date clauses) -/

theorem toAPA_flag_irrel (env : Env) (m : Metadata) (b c : Bool) :
    toAPA env { m with includeAccessDate := b } =
      toAPA env { m with includeAccessDate := c } := rfl

theorem toChicago_flag_irrel (env : Env) (m : Metadata) (b c : Bool) :
    toChicago env { m with includeAccessDate := b } =
      toChicago env { m with includeAccessDate := c } := rfl

/-- Appending a clause that ends in `.` to a text that ends in `.` commutes
with the final `trim`. -/
theorem jsTrim_snoc_clause (x cl : Str) (c : Char) (hc : c ∈ x)
    (hcw : isWsChar c = false) (hx : ∃ y, x = y ++ str ".")
    (hcl : ∃ z, cl = z ++ str ".") : jsTrim (x ++ cl) = jsTrim x ++ cl := by
  obtain ⟨y, rfl⟩ := hx
  obtain ⟨z, rfl⟩ := hcl
  apply jsTrim_append_both _ _ c hc hcw
  · exact lastNonWs_of_append_end _ y (str ".") rfl (by decide) (by decide)
  · exact lastNonWs_of_append_end _ z (str ".") rfl (by decide) (by decide)
  · simp [str]

/-- C10 (witness). -/
theorem missing_author_per_style_witness :
    (({} : Metadata).author = [] ∧
      jsTrimLeft (jsOr (Metadata.title {}) (str "Untitled")) =
        jsOr (Metadata.title {}) (str "Untitled")) ∧
      ((∃ s, toAPA envA {} = some s ∧ str "Unknown Author (" <+: s) ∧
        (∃ s, toHarvard envA {} = some s ∧ str "Unknown Author (" <+: s) ∧
        (∃ s, toMLA envA {} = some s ∧ titleLead {} <+: s) ∧
        (∃ s, toChicago envA {} = some s ∧ titleLead {} <+: s) ∧
        (∃ s, toIEEE envA {} = some s ∧ titleLead {} <+: s)) :=
  ⟨⟨rfl, by decide⟩, missing_author_per_style envA {} rfl (by decide)⟩

/-! ### Access-date clause lemmas (claim C5) -/

theorem endsNonWs_of_getLast (s : Str) (c : Char) (hc : s.getLast? = some c)
    (hw : isWsChar c = false) : EndsNonWs s := by
  intro d hd
  rw [hc] at hd
  injection hd with h
  subst h
  exact hw

theorem endsNonWs_append (a b : Str) (hb : b ≠ []) (h : EndsNonWs b) :
    EndsNonWs (a ++ b) := by
  intro d hd
  rw [getLast?_append_right a b hb] at hd
  exact h d hd

theorem append_ne_nil_left (a b : Str) (h : a ≠ []) : a ++ b ≠ [] := by simp [h]

theorem append_ne_nil_right (a b : Str) (h : b ≠ []) : a ++ b ≠ [] := by simp [h]

theorem toMLA_access_clause (env : Env) (m : Metadata)
    (hst : m.sourceType = str "webpage") (hurl : m.url ≠ []) :
    toMLA env { m with includeAccessDate := true } =
      (toMLA env { m with includeAccessDate := false }).map
        (· ++ (str " Accessed " ++ (env.accessMla ++ str "."))) := by
  have hfd : formatDate env { m with includeAccessDate := true } (str "mla") =
      formatDate env { m with includeAccessDate := false } (str "mla") := rfl
  cases hfa : formatAuthors m.author (str "mla") with
  | none =>
    simp only [toMLA]
    dsimp only
    rw [hfa]
    rfl
  | some fa =>
    simp only [toMLA]
    dsimp only
    rw [hfa]
    dsimp only
    rw [hfd, hst]
    rw [if_pos (Or.inl rfl), if_pos hurl, if_pos trivial,
      if_neg (show ¬(false = true) by simp), List.append_nil,
      show getAccessDate env (str "mla") = env.accessMla from rfl]
    rw [Option.map_some', ← List.append_assoc]
    rw [jsTrim_append_both _ _ '"'
      (List.mem_append_right _ (List.mem_append_left _ (List.mem_append_left _
        (List.mem_append_left _ (List.mem_append_left _ (List.mem_append_left _
          (List.mem_append_left _ (by decide))))))))
      (by decide)
      (endsNonWs_append _ _ (append_ne_nil_right _ _ (append_ne_nil_right _ _ (by decide)))
        (endsNonWs_append _ _ (append_ne_nil_right _ _ (by decide))
          (endsNonWs_append _ _ (by decide)
            (endsNonWs_of_getLast (str ".") '.' (by decide) (by decide)))))
      (endsNonWs_append _ _ (by decide) (endsNonWs_of_getLast (str ".") '.' (by decide) (by decide)))
      (append_ne_nil_right _ _ (by decide))]
    simp [List.append_assoc]

theorem toIEEE_access_clause (env : Env) (m : Metadata)
    (hst : m.sourceType = str "webpage") (hurl : m.url ≠ []) :
    toIEEE env { m with includeAccessDate := true } =
      (toIEEE env { m with includeAccessDate := false }).map
        (· ++ (str " [Accessed: " ++ (env.accessLong ++ str "]."))) := by
  simp only [toIEEE]
  dsimp only
  rw [hst]
  rw [if_pos (Or.inl rfl), if_pos hurl, if_pos trivial,
    if_neg (show ¬(false = true) by simp), List.append_nil,
    show getAccessDate env (str "ieee") = env.accessLong from rfl,
    if_pos (Or.inl rfl), if_pos hurl]
  rw [← List.append_assoc, ← List.append_assoc, Option.map_some']
  rw [jsTrim_append_both _ _ '"'
    (List.mem_append_left _ (List.mem_append_right _ (List.mem_append_left _
      (List.mem_append_left _ (List.mem_append_left _ (by decide))))))
    (by decide)
    (endsNonWs_append _ _ (append_ne_nil_right _ _ (by decide))
      (endsNonWs_append _ _ (by decide)
        (endsNonWs_of_getLast (str ".") '.' (by decide) (by decide))))
    (endsNonWs_append _ _ (by decide)
      (endsNonWs_of_getLast (str "].") '.' (by decide) (by decide)))
    (append_ne_nil_right _ _ (by decide))]
  simp [List.append_assoc]

theorem toHarvard_access_clause (env : Env) (m : Metadata)
    (hst : m.sourceType = str "webpage") (hurl : m.url ≠ []) :
    ∃ base,
      toHarvard env { m with includeAccessDate := false } =
          some (base ++ str ".") ∧
        toHarvard env { m with includeAccessDate := true } =
          some (base ++ (str " (Accessed: " ++ (env.accessLong ++ str ")."))) := by
  obtain ⟨fa, hfa⟩ :=
    Option.isSome_iff_exists.mp (formatAuthors_harvard_isSome m.author)
  refine ⟨jsTrimLeft (jsOr fa (str "Unknown Author") ++ str " (" ++
      jsOr m.year (str "n.d.") ++ str ") " ++
      ((str "'" ++ jsOr m.title (str "Untitled") ++ str "', " ++
          (if m.publisher ≠ [] then m.publisher ++ str ", " else [])) ++
        str "Available at: " ++ m.url)), ?_, ?_⟩
  · simp only [toHarvard]
    try dsimp only
    rw [hfa]
    try dsimp only
    rw [hst, if_pos (Or.inl rfl), jsOr_of_ne _ _ hurl,
      if_neg (show ¬(false = true) by simp), List.append_nil,
      ← List.append_assoc]
    rw [jsTrim_factor _ _ '('
      (List.mem_append_left _ (List.mem_append_left _ (List.mem_append_left _
        (List.mem_append_right _ (by decide)))))
      (by decide)
      (endsNonWs_append _ _ (by decide)
        (endsNonWs_of_getLast (str ".") '.' (by decide) (by decide)))]
  · simp only [toHarvard]
    try dsimp only
    rw [hfa]
    try dsimp only
    rw [hst, if_pos (Or.inl rfl), jsOr_of_ne _ _ hurl, if_pos trivial,
      show getAccessDate env (str "harvard") = env.accessLong from rfl,
      ← List.append_assoc, ← List.append_assoc, List.append_assoc]
    rw [jsTrim_factor _ _ '('
      (List.mem_append_left _ (List.mem_append_left _ (List.mem_append_left _
        (List.mem_append_right _ (by decide)))))
      (by decide)
      (endsNonWs_append _ _
        (append_ne_nil_right _ _ (by decide))
        (endsNonWs_append _ _ (by decide)
          (endsNonWs_of_getLast (str ".") '.' (by decide) (by decide))))]
    apply congrArg some
    simp [List.append_assoc, show str ")" ++ str "." = str ")." from rfl]

theorem joinSep_append_singleton (sep : Str) (F : List Str) (u : Str)
    (h : F ≠ []) :
    joinSep sep (F ++ [u]) = joinSep sep F ++ (sep ++ u) := by
  induction F with
  | nil => exact absurd rfl h
  | cons x F' ih =>
    cases F' with
    | nil => simp [joinSep, List.append_assoc]
    | cons y F'' =>
      have step : joinSep sep ((x :: y :: F'') ++ [u]) =
          x ++ sep ++ joinSep sep ((y :: F'') ++ [u]) := rfl
      have step2 : joinSep sep (x :: y :: F'') =
          x ++ sep ++ joinSep sep (y :: F'') := rfl
      rw [step, step2, ih (by simp)]
      simp [List.append_assoc]

theorem toBibTeX_access_clause (env : Env) (m : Metadata) (hurl : m.url ≠ []) :
    ∃ base,
      toBibTeX env { m with includeAccessDate := false } =
          some (base ++ str "\n\x7d") ∧
        toBibTeX env { m with includeAccessDate := true } =
          some (base ++
            (str ",\n  urldate = \x7b" ++ (env.isoDate ++ str "\x7d\n\x7d"))) := by
  obtain ⟨fa, hfa⟩ :=
    Option.isSome_iff_exists.mp (formatAuthors_bibtex_isSome m.author)
  have hkey : generateKeyFromFormat env.nowYear
      { m with includeAccessDate := true }
      (jsOr m.keyFormat defaultKeyFormat) =
    generateKeyFromFormat env.nowYear { m with includeAccessDate := false }
      (jsOr m.keyFormat defaultKeyFormat) := rfl
  have htype : getBibTeXType m.sourceType { m with includeAccessDate := true } =
      getBibTeXType m.sourceType { m with includeAccessDate := false } := rfl
  refine ⟨str "@" ++ getBibTeXType m.sourceType
      { m with includeAccessDate := false } ++ str "\x7b" ++
      generateKeyFromFormat env.nowYear { m with includeAccessDate := false }
        (jsOr m.keyFormat defaultKeyFormat) ++ str ",\n" ++
      joinSep (str ",\n")
        ((if m.author ≠ [] then [str "  author = \x7b" ++ fa ++ str "\x7d"] else []) ++
          (if m.title ≠ [] then [str "  title = \x7b" ++ m.title ++ str "\x7d"] else []) ++
          (if m.year ≠ [] then [str "  year = \x7b" ++ m.year ++ str "\x7d"] else []) ++
          [str "  url = \x7b" ++ m.url ++ str "\x7d"] ++
          (if m.publisher ≠ [] then [str "  publisher = \x7b" ++ m.publisher ++ str "\x7d"] else []) ++
          (if m.journal ≠ [] then [str "  journal = \x7b" ++ m.journal ++ str "\x7d"] else []) ++
          (if m.volume ≠ [] then [str "  volume = \x7b" ++ m.volume ++ str "\x7d"] else []) ++
          (if m.issue ≠ [] then [str "  number = \x7b" ++ m.issue ++ str "\x7d"] else []) ++
          (if m.pages ≠ [] then [str "  pages = \x7b" ++ m.pages ++ str "\x7d"] else []) ++
          (if m.doi ≠ [] then [str "  doi = \x7b" ++ m.doi ++ str "\x7d"] else []) ++
          (if m.isbn ≠ [] then [str "  isbn = \x7b" ++ m.isbn ++ str "\x7d"] else [])), ?_, ?_⟩
  · simp only [toBibTeX, bibtexFields]
    try dsimp only
    rw [hfa]
    try dsimp only
    rw [if_pos hurl, if_neg (show ¬((false = true) ∧ m.url ≠ []) by simp),
      List.append_nil]
  · simp only [toBibTeX, bibtexFields]
    try dsimp only
    rw [hfa]
    try dsimp only
    rw [if_pos hurl, if_pos (show _ ∧ m.url ≠ [] from ⟨by trivial, hurl⟩),
      hkey, htype]
    rw [joinSep_append_singleton _ _ _ (by simp)]
    apply congrArg some
    simp [List.append_assoc,
      show str "\x7d" ++ str "\n\x7d" = str "\x7d\n\x7d" from rfl]
    rw [← List.append_assoc,
      show str ",\n" ++ str "  urldate = \x7b" = str ",\n  urldate = \x7b"
        from by decide]


/-- C5 (counterexample): APA emits no access-date clause even when
`includeAccessDate` is true on an online record with a url — `toAPA` (like
`toChicago`) never consults the flag, contradicting "every style appends its
own clause". -/
theorem toAPA_no_access_clause :
    ({ sourceType := str "webpage", url := str "https://x", title := str "T",
        includeAccessDate := true } : Metadata).includeAccessDate = true ∧
      toAPA envA ({ sourceType := str "webpage", url := str "https://x",
                    title := str "T", includeAccessDate := true } : Metadata) =
        some (str "Unknown Author (n.d.). T. https://x") ∧
      ¬ str "Accessed" <:+: str "Unknown Author (n.d.). T. https://x" :=
  ⟨rfl, by decide, by decide⟩

/-- C5 (amended): for a webpage record with a url, MLA, Harvard and IEEE
append exactly their own access-date clause (their own phrase in their own
date convention) when `includeAccessDate` is true, and the flag-false output
is the flag-true output with that clause removed; BibTeX appends the
`urldate` field the same way; APA and Chicago ignore the flag and never
emit an access-date clause. -/
theorem access_date_clause_per_style (env : Env) (m : Metadata)
    (hst : m.sourceType = str "webpage") (hurl : m.url ≠ []) :
    toAPA env { m with includeAccessDate := true } =
        toAPA env { m with includeAccessDate := false } ∧
      toChicago env { m with includeAccessDate := true } =
        toChicago env { m with includeAccessDate := false } ∧
      toMLA env { m with includeAccessDate := true } =
        (toMLA env { m with includeAccessDate := false }).map
          (· ++ (str " Accessed " ++ (env.accessMla ++ str "."))) ∧
      (∃ base, toHarvard env { m with includeAccessDate := false } =
            some (base ++ str ".") ∧
          toHarvard env { m with includeAccessDate := true } =
            some (base ++ (str " (Accessed: " ++ (env.accessLong ++ str ").")))) ∧
      toIEEE env { m with includeAccessDate := true } =
        (toIEEE env { m with includeAccessDate := false }).map
          (· ++ (str " [Accessed: " ++ (env.accessLong ++ str "]."))) ∧
      ∃ base, toBibTeX env { m with includeAccessDate := false } =
          some (base ++ str "\n\x7d") ∧
        toBibTeX env { m with includeAccessDate := true } =
          some (base ++
            (str ",\n  urldate = \x7b" ++ (env.isoDate ++ str "\x7d\n\x7d"))) :=
  ⟨toAPA_flag_irrel env m true false, toChicago_flag_irrel env m true false,
    toMLA_access_clause env m hst hurl, toHarvard_access_clause env m hst hurl,
    toIEEE_access_clause env m hst hurl, toBibTeX_access_clause env m hurl⟩

/-- C5 (witness). -/
theorem access_date_clause_per_style_witness :
    (({ sourceType := str "webpage", url := str "https://x" } : Metadata).sourceType
          = str "webpage" ∧
        ({ sourceType := str "webpage", url := str "https://x" } : Metadata).url
          ≠ []) ∧
      toAPA envA { ({ sourceType := str "webpage", url := str "https://x" } :
                     Metadata) with includeAccessDate := true } =
        toAPA envA { ({ sourceType := str "webpage", url := str "https://x" } :
                       Metadata) with includeAccessDate := false } :=
  ⟨⟨rfl, by decide⟩,
    (access_date_clause_per_style envA
      { sourceType := str "webpage", url := str "https://x" } rfl (by decide)).1⟩

/-! ### Injection-freedom machinery (claim C6) -/

theorem inf_of_pref {t s : Str} (h : t <+: s) : t <:+: s := by
  obtain ⟨u, rfl⟩ := h
  exact ⟨[], u, by simp⟩

theorem inf_of_suff {t s : Str} (h : t <:+ s) : t <:+: s := by
  obtain ⟨u, rfl⟩ := h
  exact ⟨u, [], by simp⟩

theorem inf_cons {t rest : Str} (c : Char) (h : t <:+: rest) :
    t <:+: c :: rest := by
  obtain ⟨p, q, rfl⟩ := h
  exact ⟨c :: p, q, by simp⟩

theorem inf_ext {t s : Str} (a b : Str) (h : t <:+: s) :
    t <:+: a ++ s ++ b := by
  obtain ⟨p, q, rfl⟩ := h
  exact ⟨a ++ p, q ++ b, by simp⟩

theorem inf_ext_right {t s : Str} (b : Str) (h : t <:+: s) : t <:+: s ++ b := by
  have h2 := inf_ext [] b h
  simpa using h2

theorem inf_ext_left {t s : Str} (a : Str) (h : t <:+: s) : t <:+: a ++ s := by
  have h2 := inf_ext a [] h
  simpa using h2

theorem noOcc_of_sub {t s x : Str} (h : NoOcc t s) (hx : x <:+: s) :
    NoOcc t x := fun ht => h (ht.trans hx)

theorem noOcc_nil {t : Str} (h : okToken t) : NoOcc t [] := by
  intro hocc
  have h1 := h.2.1
  have h2 := hocc.sublist.length_le
  simp only [List.length_nil] at h2
  omega

theorem noOcc_short {t s : Str} (h : s.length < t.length) : NoOcc t s := by
  intro hocc
  have h2 := hocc.sublist.length_le
  omega

theorem noOcc_pool {t : Str} (h : okToken t) (l : Str) (hl : l ∈ litPool) :
    NoOcc t l := h.2.2 l hl

theorem noOcc_nonalpha {t s : Str} (ht : t.all isAlphaChar = true)
    (htne : 3 ≤ t.length) (hs : s.all (fun c => !isAlphaChar c) = true) :
    NoOcc t s := by
  intro hocc
  cases hc : t with
  | nil => rw [hc] at htne; simp at htne
  | cons c t' =>
    have hct : c ∈ t := by rw [hc]; exact List.mem_cons_self c t'
    have hca : isAlphaChar c = true := by
      rw [List.all_eq_true] at ht
      exact ht c hct
    have hcs : c ∈ s := hocc.subset hct
    rw [List.all_eq_true] at hs
    have h3 := hs c hcs
    simp [hca] at h3

/-- Decomposition of an occurrence in an append: inside the left part,
inside the right part, or spanning the junction. -/
theorem infix_append_cases {t a b : Str} (h : t <:+: a ++ b) :
    t <:+: a ∨ t <:+: b ∨
      ∃ t1 t2, t = t1 ++ t2 ∧ t1 ≠ [] ∧ t2 ≠ [] ∧ t1 <:+ a ∧ t2 <+: b := by
  obtain ⟨p, q, hpq⟩ := h
  rcases List.append_eq_append_iff.mp hpq with ⟨w, hw1, hw2⟩ | ⟨w, hw1, hw2⟩
  · left
    exact ⟨p, w, by simp [hw1, List.append_assoc]⟩
  · rcases List.append_eq_append_iff.mp hw1 with ⟨x, hx1, hx2⟩ | ⟨x, hx1, hx2⟩
    · by_cases hxnil : x = []
      · subst hxnil
        right; left
        refine ⟨[], q, ?_⟩
        simp only [List.nil_append] at hx2
        rw [hw2, hx2]
        simp
      · by_cases hwnil : w = []
        · subst hwnil
          left
          refine ⟨p, [], ?_⟩
          simp only [List.append_nil] at hx2
          rw [hx1, hx2]
          simp
        · right; right
          exact ⟨x, w, hx2, hxnil, hwnil, ⟨p, hx1.symm⟩, ⟨q, hw2.symm⟩⟩
    · right; left
      refine ⟨x, q, ?_⟩
      simp [hw2, hx2, List.append_assoc]

theorem headNA_of_head {s : Str} (c : Char) (hc : s.head? = some c)
    (ha : isAlphaChar c = false) : HeadNonAlpha s := by
  intro d hd
  rw [hc] at hd
  injection hd with h
  subst h
  exact ha

theorem headNA_nil : HeadNonAlpha ([] : Str) := by
  intro d hd
  cases hd

theorem lastNA_of_getLast {s : Str} (c : Char) (hc : s.getLast? = some c)
    (ha : isAlphaChar c = false) : LastNonAlpha s := by
  intro d hd
  rw [hc] at hd
  injection hd with h
  subst h
  exact ha

theorem lastNA_nil : LastNonAlpha ([] : Str) := by
  intro d hd
  cases hd

theorem headNA_append {a b : Str} (ha : HeadNonAlpha a) (hb : HeadNonAlpha b) :
    HeadNonAlpha (a ++ b) := by
  cases a with
  | nil => simpa using hb
  | cons x a' =>
    intro d hd
    rw [List.head?_append_of_ne_nil _ (by simp)] at hd
    exact ha d hd

theorem lastNA_append {a b : Str} (ha : LastNonAlpha a) (hb : LastNonAlpha b) :
    LastNonAlpha (a ++ b) := by
  cases hb' : b with
  | nil => simpa using ha
  | cons x b' =>
    intro d hd
    rw [← hb', getLast?_append_right a b (by rw [hb']; simp)] at hd
    exact hb d hd

theorem lastNA_append_right {a b : Str} (hb : b ≠ []) (h : LastNonAlpha b) :
    LastNonAlpha (a ++ b) := by
  intro d hd
  rw [getLast?_append_right a b hb] at hd
  exact h d hd

theorem headNA_ite (c : Prop) [Decidable c] {x y : Str} (hx : HeadNonAlpha x)
    (hy : HeadNonAlpha y) : HeadNonAlpha (if c then x else y) := by
  split
  · exact hx
  · exact hy

theorem lastNA_ite (c : Prop) [Decidable c] {x y : Str} (hx : LastNonAlpha x)
    (hy : LastNonAlpha y) : LastNonAlpha (if c then x else y) := by
  split
  · exact hx
  · exact hy

theorem noOcc_mem_of_head? {l : Str} {c : Char} (h : l.head? = some c) : c ∈ l := by
  cases l with
  | nil => cases h
  | cons x t =>
    injection h with h'
    subst h'
    exact List.mem_cons_self x t

theorem noOcc_mem_of_getLast? {l : Str} {c : Char} (h : l.getLast? = some c) :
    c ∈ l := by
  have h2 : c ∈ l.reverse := by
    cases hl : l.reverse with
    | nil =>
      rw [← List.head?_reverse l, hl] at h
      cases h
    | cons x t =>
      rw [← List.head?_reverse l, hl] at h
      injection h with h'
      rw [List.mem_cons]
      exact Or.inl h'.symm
  simpa using h2

/-- The junction lemma: an all-alphabetic token cannot span an append whose
junction has a non-letter on at least one side. -/
theorem noOcc_append {t a b : Str} (ht : t.all isAlphaChar = true)
    (hbound : LastNonAlpha a ∨ HeadNonAlpha b)
    (ha : NoOcc t a) (hb : NoOcc t b) : NoOcc t (a ++ b) := by
  intro hocc
  rcases infix_append_cases hocc with h | h | ⟨t1, t2, ht12, h1ne, h2ne, hsuf, hpre⟩
  · exact ha h
  · exact hb h
  · rcases hbound with hla | hhb
    · obtain ⟨u, hu⟩ := hsuf
      cases hlast : t1.getLast? with
      | none =>
        rw [List.getLast?_eq_none_iff] at hlast
        exact h1ne hlast
      | some c =>
        have hca : c ∈ t1 := noOcc_mem_of_getLast? hlast
        have hct : c ∈ t := by rw [ht12]; exact List.mem_append_left _ hca
        have halpha : isAlphaChar c = true := (List.all_eq_true.mp ht) c hct
        have hga : a.getLast? = some c := by
          rw [← hu, getLast?_append_right u t1 h1ne, hlast]
        have hfalse := hla c hga
        rw [halpha] at hfalse
        cases hfalse
    · obtain ⟨u, hu⟩ := hpre
      cases hhead : t2.head? with
      | none =>
        rw [List.head?_eq_none_iff] at hhead
        exact h2ne hhead
      | some c =>
        have hca : c ∈ t2 := noOcc_mem_of_head? hhead
        have hct : c ∈ t := by rw [ht12]; exact List.mem_append_right _ hca
        have halpha : isAlphaChar c = true := (List.all_eq_true.mp ht) c hct
        have hgb : b.head? = some c := by
          rw [← hu, List.head?_append_of_ne_nil _ h2ne, hhead]
        have hfalse := hhb c hgb
        rw [halpha] at hfalse
        cases hfalse

theorem noOcc_ite {t : Str} (c : Prop) [Decidable c] {x y : Str}
    (hx : NoOcc t x) (hy : NoOcc t y) : NoOcc t (if c then x else y) := by
  split
  · exact hx
  · exact hy

theorem jsTrim_sub (s : Str) : jsTrim s <:+: s := by
  have h1 : jsTrimLeft (jsTrimRight s) <:+ jsTrimRight s :=
    List.dropWhile_suffix _
  have h2 : jsTrimRight s <+: s := by
    unfold jsTrimRight
    obtain ⟨u, hu⟩ := List.dropWhile_suffix (l := s.reverse) (p := isWsChar)
    exact ⟨u.reverse, by rw [← List.reverse_append, hu, List.reverse_reverse]⟩
  exact (inf_of_suff h1).trans (inf_of_pref h2)

theorem noOcc_jsOr {t v d : Str} (hv : NoOcc t v) (hd : NoOcc t d) :
    NoOcc t (jsOr v d) := by
  unfold jsOr
  split
  · exact hd
  · exact hv

theorem noOcc_joinSep {t sep : Str} (ht : t.all isAlphaChar = true)
    (hok : okToken t) (hsh : HeadNonAlpha sep) (hsne : sep ≠ [])
    (hsl : LastNonAlpha sep) (hsn : NoOcc t sep) :
    ∀ l : List Str, (∀ x ∈ l, NoOcc t x) → NoOcc t (joinSep sep l)
  | [] => fun _ => noOcc_nil hok
  | [x] => fun h => h x (by simp)
  | x :: y :: rest => fun h => by
    have hrec := noOcc_joinSep ht hok hsh hsne hsl hsn (y :: rest)
      (fun z hz => h z (List.mem_cons_of_mem x hz))
    have step : joinSep sep (x :: y :: rest) =
        x ++ sep ++ joinSep sep (y :: rest) := rfl
    rw [step]
    exact noOcc_append ht (Or.inl (lastNA_append_right hsne hsl))
      (noOcc_append ht (Or.inr hsh) (h x (by simp)) hsn) hrec

/-- Every piece produced by the author-splitting scanner is a contiguous
substring of the input (with the pending reversed piece restored). -/
theorem splitAuthorPiecesAux_sub :
    ∀ (s cur : Str), ∀ p ∈ splitAuthorPiecesAux s cur, p <:+: cur.reverse ++ s := by
  intro s cur
  induction s, cur using splitAuthorPiecesAux.induct with
  | case1 cur =>
    intro p hp
    rw [splitAuthorPiecesAux.eq_1] at hp
    rcases List.mem_singleton.mp hp with rfl
    exact ⟨[], [], by simp⟩
  | case2 rest cur ih =>
    intro p hp
    rw [splitAuthorPiecesAux.eq_2] at hp
    rcases List.mem_cons.mp hp with rfl | hmem
    · exact ⟨[], ';' :: rest, by simp⟩
    · have h2 := ih p hmem
      simp only [List.reverse_nil, List.nil_append] at h2
      have h3 := inf_ext_left (cur.reverse ++ [';']) h2
      simpa [List.append_assoc] using h3
  | case3 c d rest cur hne h ih =>
    intro p hp
    rw [splitAuthorPiecesAux.eq_3 cur c d rest hne, if_pos h] at hp
    rcases List.mem_cons.mp hp with rfl | hmem
    · exact ⟨[], c :: 'a' :: 'n' :: 'd' :: d :: rest, by simp⟩
    · have h2 := ih p hmem
      simp only [List.reverse_nil, List.nil_append] at h2
      have h3 := inf_ext_left (cur.reverse ++ [c, 'a', 'n', 'd', d]) h2
      simpa [List.append_assoc] using h3
  | case4 c d rest cur hne h ih =>
    intro p hp
    rw [splitAuthorPiecesAux.eq_3 cur c d rest hne, if_neg h] at hp
    have h2 := ih p hp
    simpa [List.append_assoc] using h2
  | case5 c rest cur hne hpat ih =>
    intro p hp
    rw [splitAuthorPiecesAux.eq_4 cur c rest hne hpat] at hp
    have h2 := ih p hp
    simpa [List.append_assoc] using h2

/-- From `splitAuthorPiecesAux_sub`: every raw piece of the author split is
a contiguous substring of the author string. -/
theorem splitAuthorPieces_sub (s : Str) (p : Str)
    (hp : p ∈ splitAuthorPieces s) : p <:+: s := by
  have h := splitAuthorPiecesAux_sub s [] p hp
  simpa using h

/-- Opening a prepended non-empty chunk keeps a non-letter first character. -/
theorem headNA_append_left {a : Str} (b : Str) (hne : a ≠ [])
    (ha : HeadNonAlpha a) : HeadNonAlpha (a ++ b) := by
  intro c hc
  rw [List.head?_append_of_ne_nil _ hne] at hc
  exact ha c hc

/-- Membership in a conditional singleton list forces equality. -/
theorem mem_ite_singleton {c : Prop} [Decidable c] {x e : Str}
    (h : x ∈ (if c then [e] else ([] : List Str))) : x = e := by
  split at h
  · simpa using h
  · simp at h

/-- The pieces of a single-character split: every piece is an infix, and the
first piece is a prefix. -/
theorem splitOnChar_parts (sep : Char) :
    ∀ (s : Str), (∀ p ∈ splitOnChar sep s, p <:+: s) ∧
      ∀ q qs, splitOnChar sep s = q :: qs → q <+: s := by
  intro s
  induction s with
  | nil =>
    constructor
    · intro p hp
      simp only [splitOnChar, List.mem_singleton] at hp
      subst hp
      exact ⟨[], [], rfl⟩
    · intro q qs hq
      simp only [splitOnChar, List.cons.injEq] at hq
      rw [← hq.1]
  | cons c rest ih =>
    by_cases hc : c = sep
    · constructor
      · intro p hp
        rw [splitOnChar, if_pos hc] at hp
        rcases List.mem_cons.mp hp with rfl | hmem
        · exact ⟨[], c :: rest, by simp⟩
        · exact inf_cons c (ih.1 p hmem)
      · intro q qs hq
        rw [splitOnChar, if_pos hc] at hq
        rw [← (List.cons.injEq _ _ _ _).mp hq |>.1]
        exact List.nil_prefix
    · cases hsp : splitOnChar sep rest with
      | nil =>
        constructor
        · intro p hp
          rw [splitOnChar, if_neg hc, hsp] at hp
          rcases List.mem_singleton.mp hp with rfl
          exact ⟨[], rest, rfl⟩
        · intro q qs hq
          rw [splitOnChar, if_neg hc, hsp] at hq
          rw [← (List.cons.injEq _ _ _ _).mp hq |>.1]
          exact ⟨rest, rfl⟩
      | cons q qs =>
        have hqpre : q <+: rest := ih.2 q qs hsp
        constructor
        · intro p hp
          rw [splitOnChar, if_neg hc, hsp] at hp
          rcases List.mem_cons.mp hp with rfl | hmem
          · exact inf_of_pref (List.cons_prefix_cons.mpr ⟨rfl, hqpre⟩)
          · exact inf_cons c (ih.1 p (by rw [hsp]; exact List.mem_cons_of_mem q hmem))
        · intro q' qs' hq'
          rw [splitOnChar, if_neg hc, hsp] at hq'
          rw [← (List.cons.injEq _ _ _ _).mp hq' |>.1]
          exact List.cons_prefix_cons.mpr ⟨rfl, hqpre⟩

/-- A token absent from a string is absent from each single-character-split
piece. -/
theorem noOcc_splitOnChar {t s : Str} (sep : Char) (hs : NoOcc t s) :
    ∀ p ∈ splitOnChar sep s, NoOcc t p :=
  fun p hp => noOcc_of_sub hs ((splitOnChar_parts sep s).1 p hp)

/-- A token absent from a string is absent from each trimmed split piece. -/
theorem noOcc_trimParts {t s : Str} (sep : Char) (hs : NoOcc t s) :
    ∀ p ∈ (splitOnChar sep s).map jsTrim, NoOcc t p := by
  intro p hp
  rcases List.mem_map.mp hp with ⟨q, hq, rfl⟩
  exact noOcc_of_sub (noOcc_splitOnChar sep hs q hq) (jsTrim_sub q)

/-- A token absent from the author string is absent from each author entry. -/
theorem authorEntries_noOcc {t authors : Str} (hs : NoOcc t authors) :
    ∀ a ∈ authorEntries authors, NoOcc t a := by
  intro a ha
  rcases List.mem_map.mp ha with ⟨q, hq, rfl⟩
  have hq2 := (List.mem_filter.mp hq).1
  exact noOcc_of_sub (noOcc_of_sub hs (splitAuthorPieces_sub authors q hq2))
    (jsTrim_sub q)

/-- Lifting a pointwise `NoOcc` bound to `headD`. -/
theorem noOcc_headD {t : Str} {l : List Str} (hok : okToken t)
    (h : ∀ x ∈ l, NoOcc t x) : NoOcc t (l.headD []) := by
  cases l with
  | nil => exact noOcc_nil hok
  | cons x xs => exact h x (List.mem_cons_self x xs)

/-- Lifting a pointwise `NoOcc` bound to `getD`. -/
theorem noOcc_getD {t : Str} {l : List Str} (n : Nat) (hok : okToken t)
    (h : ∀ x ∈ l, NoOcc t x) : NoOcc t (l.getD n []) := by
  rw [List.getD_eq_getElem?_getD]
  cases hx : l[n]? with
  | none => exact noOcc_nil hok
  | some x => exact h x (List.getElem?_mem hx)

/-- Lifting a pointwise `NoOcc` bound to `getLastD`. -/
theorem noOcc_getLastD {t : Str} {l : List Str} (hok : okToken t)
    (h : ∀ x ∈ l, NoOcc t x) : NoOcc t (l.getLastD []) := by
  rw [List.getLastD_eq_getLast?]
  cases hx : l.getLast? with
  | none => exact noOcc_nil hok
  | some x => exact h x (List.mem_of_mem_getLast? hx)

/-- Looked-up values come from the association list's value column. -/
theorem lookup_mem_snd {α β : Type} [BEq α] {a : α} {v : β} :
    ∀ l : List (α × β), List.lookup a l = some v → v ∈ l.map Prod.snd
  | [], h => by simp [List.lookup] at h
  | (k, w) :: es, h => by
    rw [List.lookup] at h
    cases hk : a == k
    · rw [hk] at h
      have := lookup_mem_snd es h
      simp [this]
    · rw [hk] at h
      simp only [Option.some.injEq] at h
      simp [h]

/-- A string containing a non-whitespace character does not trim to empty. -/
theorem jsTrim_ne_nil_of_mem {s : Str} {c : Char} (hc : c ∈ s)
    (hnw : isWsChar c = false) : jsTrim s ≠ [] := by
  intro h
  have hsplit : jsTrimRight s ++ (List.takeWhile isWsChar s.reverse).reverse = s := by
    unfold jsTrimRight
    rw [← List.reverse_append, List.takeWhile_append_dropWhile, List.reverse_reverse]
  rw [← hsplit] at hc
  rcases List.mem_append.mp hc with hm | hm
  · have hall := List.dropWhile_eq_nil_iff.mp h
    have := hall c hm
    rw [hnw] at this
    cases this
  · have := List.mem_takeWhile_imp (List.mem_reverse.mp hm)
    rw [hnw] at this
    cases this

/-- A non-letter head character established by evaluation. -/
theorem headNA_lit {s : Str} (h : (s.head?.map isAlphaChar).getD false = false) :
    HeadNonAlpha s := by
  intro c hc
  rw [hc] at h
  simpa using h

/-- A non-letter last character established by evaluation. -/
theorem lastNA_lit {s : Str} (h : (s.getLast?.map isAlphaChar).getD false = false) :
    LastNonAlpha s := by
  intro c hc
  rw [hc] at h
  simpa using h

/-- Initials are too short to contain a forbidden token. -/
theorem noOcc_initialsOfList {t : Str} (hok : okToken t) (l : List Str) :
    NoOcc t (initialsOfList l) := by
  unfold initialsOfList
  apply noOcc_joinSep hok.1 hok (headNA_lit (by decide)) (by decide)
    (lastNA_lit (by decide)) (noOcc_pool hok _ (by decide))
  intro x hx
  rcases List.mem_map.mp hx with ⟨n, _, rfl⟩
  have h3 : (charAt0Upper n).length ≤ 1 := by
    cases n <;> simp [charAt0Upper]
  have h4 : (str ".").length = 1 := by decide
  have h5 := hok.2.1
  apply noOcc_short
  rw [List.length_append, h4]
  omega

/-- The APA author renderer never introduces a forbidden token. -/
theorem noOcc_formatAuthorAPA {t a : Str} (hok : okToken t) (ha : NoOcc t a) :
    NoOcc t (formatAuthorAPA a) := by
  have hparts : ∀ x ∈ (splitOnChar ',' a).map jsTrim, NoOcc t x :=
    noOcc_trimParts ',' ha
  have hwords : ∀ x ∈ splitOnChar ' ' a, NoOcc t x := noOcc_splitOnChar ' ' ha
  simp only [formatAuthorAPA]
  split
  · exact noOcc_append hok.1
      (Or.inl (lastNA_append_right (by decide) (lastNA_lit (by decide))))
      (noOcc_append hok.1 (Or.inr (headNA_lit (by decide)))
        (noOcc_headD hok hparts) (noOcc_pool hok _ (by decide)))
      (noOcc_initialsOfList hok _)
  · split
    · exact noOcc_append hok.1
        (Or.inl (lastNA_append_right (by decide) (lastNA_lit (by decide))))
        (noOcc_append hok.1 (Or.inr (headNA_lit (by decide)))
          (noOcc_getLastD hok hwords) (noOcc_pool hok _ (by decide)))
        (noOcc_initialsOfList hok _)
    · exact ha

/-- The MLA author renderer never introduces a forbidden token. -/
theorem noOcc_formatAuthorMLA {t a : Str} (b : Bool) (hok : okToken t)
    (ha : NoOcc t a) : NoOcc t (formatAuthorMLA a b) := by
  have hparts : ∀ x ∈ (splitOnChar ',' a).map jsTrim, NoOcc t x :=
    noOcc_trimParts ',' ha
  have hwords : ∀ x ∈ splitOnChar ' ' a, NoOcc t x := noOcc_splitOnChar ' ' ha
  simp only [formatAuthorMLA]
  split
  · split
    · exact noOcc_append hok.1
        (Or.inl (lastNA_append_right (by decide) (lastNA_lit (by decide))))
        (noOcc_append hok.1 (Or.inr (headNA_lit (by decide)))
          (noOcc_getD 1 hok hparts) (noOcc_pool hok _ (by decide)))
        (noOcc_headD hok hparts)
    · exact noOcc_append hok.1
        (Or.inl (lastNA_append_right (by decide) (lastNA_lit (by decide))))
        (noOcc_append hok.1 (Or.inr (headNA_lit (by decide)))
          (noOcc_headD hok hparts) (noOcc_pool hok _ (by decide)))
        (noOcc_getD 1 hok hparts)
  · split
    · apply noOcc_append hok.1
        (Or.inl (lastNA_append_right (by decide) (lastNA_lit (by decide))))
        (noOcc_append hok.1 (Or.inr (headNA_lit (by decide)))
          (noOcc_getLastD hok hwords) (noOcc_pool hok _ (by decide)))
      apply noOcc_joinSep hok.1 hok (headNA_lit (by decide)) (by decide)
        (lastNA_lit (by decide)) (noOcc_pool hok _ (by decide))
      intro x hx
      exact hwords x ((List.dropLast_sublist _).subset hx)
    · exact ha

/-- The Chicago author renderer never introduces a forbidden token. -/
theorem noOcc_formatAuthorChicago {t a : Str} (b : Bool) (hok : okToken t)
    (ha : NoOcc t a) : NoOcc t (formatAuthorChicago a b) :=
  noOcc_formatAuthorMLA b hok ha

/-- The IEEE single-author renderer never introduces a forbidden token. -/
theorem noOcc_formatAuthorIEEESingle {t a : Str} (hok : okToken t)
    (ha : NoOcc t a) : NoOcc t (formatAuthorIEEESingle a) := by
  have hparts : ∀ x ∈ (splitOnChar ',' a).map jsTrim, NoOcc t x :=
    noOcc_trimParts ',' ha
  have hwords : ∀ x ∈ splitOnChar ' ' a, NoOcc t x := noOcc_splitOnChar ' ' ha
  simp only [formatAuthorIEEESingle]
  split
  · exact noOcc_append hok.1
      (Or.inl (lastNA_append_right (by decide) (lastNA_lit (by decide))))
      (noOcc_append hok.1 (Or.inr (headNA_lit (by decide)))
        (noOcc_initialsOfList hok _) (noOcc_pool hok _ (by decide)))
      (noOcc_headD hok hparts)
  · split
    · exact noOcc_append hok.1
        (Or.inl (lastNA_append_right (by decide) (lastNA_lit (by decide))))
        (noOcc_append hok.1 (Or.inr (headNA_lit (by decide)))
          (noOcc_initialsOfList hok _) (noOcc_pool hok _ (by decide)))
        (noOcc_getLastD hok hwords)
    · exact ha

/-- The IEEE author-list renderer never introduces a forbidden token. -/
theorem noOcc_formatAuthorsIEEE {t authors : Str} (hok : okToken t)
    (ha : NoOcc t authors) : NoOcc t (formatAuthorsIEEE authors) := by
  simp only [formatAuthorsIEEE]
  split
  · exact noOcc_nil hok
  · apply noOcc_joinSep hok.1 hok (headNA_lit (by decide)) (by decide)
      (lastNA_lit (by decide)) (noOcc_pool hok _ (by decide))
    intro x hx
    rcases List.mem_map.mp hx with ⟨y, hy, rfl⟩
    exact noOcc_formatAuthorIEEESingle hok (authorEntries_noOcc ha y hy)

theorem litSide_props {mid : Str} (h : litSideB mid = true) :
    mid ∈ litPool ∧ HeadNonAlpha mid ∧ LastNonAlpha mid ∧ mid ≠ [] := by
  unfold litSideB at h
  simp only [Bool.and_eq_true, decide_eq_true_eq] at h
  obtain ⟨⟨⟨h1, h2⟩, h3⟩, h4⟩ := h
  refine ⟨h1, headNA_lit ?_, lastNA_lit ?_, ?_⟩
  · simpa using h2
  · simpa using h3
  · intro he
    rw [he] at h4
    simp at h4

/-- `X ++ lit ++ Y` keeps a forbidden token out when both sides do. -/
theorem noOcc_glue {t : Str} (hok : okToken t) (mid : Str)
    (hside : litSideB mid = true) {x y : Str} (hx : NoOcc t x)
    (hy : NoOcc t y) : NoOcc t (x ++ mid ++ y) := by
  obtain ⟨hp, hh, hl, hne⟩ := litSide_props hside
  exact noOcc_append hok.1 (Or.inl (lastNA_append_right hne hl))
    (noOcc_append hok.1 (Or.inr hh) hx (noOcc_pool hok _ hp)) hy

/-- Side conditions for a literal closing a clause: pool membership and a
non-letter first character. -/
def litSnocB (mid : Str) : Bool :=
  decide (mid ∈ litPool) && !(mid.head?.map isAlphaChar).getD false

/-- `X ++ lit` keeps a forbidden token out when `X` does. -/
theorem noOcc_snoc_lit {t : Str} (hok : okToken t) (mid : Str)
    (hside : litSnocB mid = true) {x : Str} (hx : NoOcc t x) :
    NoOcc t (x ++ mid) := by
  simp only [litSnocB, Bool.and_eq_true, decide_eq_true_eq] at hside
  exact noOcc_append hok.1 (Or.inr (headNA_lit (by simpa using hside.2))) hx
    (noOcc_pool hok _ hside.1)

/-- Side conditions for a literal opening a clause: pool membership and a
non-letter last character. -/
def litConsB (mid : Str) : Bool :=
  decide (mid ∈ litPool) && !(mid.getLast?.map isAlphaChar).getD false

/-- `lit ++ Y` keeps a forbidden token out when `Y` does. -/
theorem noOcc_cons_lit {t : Str} (hok : okToken t) (mid : Str)
    (hside : litConsB mid = true) {y : Str} (hy : NoOcc t y) :
    NoOcc t (mid ++ y) := by
  simp only [litConsB, Bool.and_eq_true, decide_eq_true_eq] at hside
  exact noOcc_append hok.1 (Or.inl (lastNA_lit (by simpa using hside.2)))
    (noOcc_pool hok _ hside.1) hy

/-- Joining clean pieces with a qualifying literal separator stays clean. -/
theorem noOcc_join_lit {t : Str} (hok : okToken t) (mid : Str)
    (hside : litSideB mid = true) {L : List Str} (h : ∀ x ∈ L, NoOcc t x) :
    NoOcc t (joinSep mid L) := by
  obtain ⟨hp, hh, hl, hne⟩ := litSide_props hside
  exact noOcc_joinSep hok.1 hok hh hne hl (noOcc_pool hok _ hp) L h

/-- The shared author-list renderer never introduces a forbidden token,
whatever the style. -/
theorem noOcc_formatAuthors {t authors style fa : Str} (hok : okToken t)
    (ha : NoOcc t authors) (hfa : formatAuthors authors style = some fa) :
    NoOcc t fa := by
  have hl : ∀ x ∈ authorEntries authors, NoOcc t x := authorEntries_noOcc ha
  simp only [formatAuthors] at hfa
  by_cases h0 : authors = []
  · rw [if_pos h0, Option.some.injEq] at hfa
    subst hfa
    exact noOcc_nil hok
  · rw [if_neg h0] at hfa
    by_cases hb : style = str "bibtex"
    · rw [if_pos hb, Option.some.injEq] at hfa
      subst hfa
      exact noOcc_join_lit hok (str " and ") (by decide) hl
    · rw [if_neg hb] at hfa
      by_cases hap : style = str "apa"
      · rw [if_pos hap] at hfa
        cases hle : authorEntries authors with
        | nil =>
          rw [hle] at hfa
          exact absurd hfa (by simp)
        | cons a l2 =>
          rw [hle] at hl
          cases l2 with
          | nil =>
            rw [hle] at hfa
            simp only [Option.some.injEq] at hfa
            subst hfa
            exact noOcc_formatAuthorAPA hok (hl a (by simp))
          | cons b l3 =>
            cases l3 with
            | nil =>
              rw [hle] at hfa
              simp only [Option.some.injEq] at hfa
              subst hfa
              exact noOcc_glue hok (str " & ") (by decide)
                (noOcc_formatAuthorAPA hok (hl a (by simp)))
                (noOcc_formatAuthorAPA hok (hl b (by simp)))
            | cons c rest =>
              rw [hle] at hfa
              simp only [Option.some.injEq] at hfa
              split at hfa <;> rw [Option.some.injEq] at hfa <;> subst hfa
              · apply noOcc_glue hok (str ", & ") (by decide)
                · apply noOcc_join_lit hok (str ", ") (by decide)
                  intro x hx
                  rcases List.mem_map.mp hx with ⟨y, hy, rfl⟩
                  exact noOcc_formatAuthorAPA hok
                    (hl y ((List.dropLast_sublist _).subset hy))
                · exact noOcc_formatAuthorAPA hok (noOcc_getLastD hok hl)
              · apply noOcc_glue hok (str ", ... ") (by decide)
                · apply noOcc_join_lit hok (str ", ") (by decide)
                  intro x hx
                  rcases List.mem_map.mp hx with ⟨y, hy, rfl⟩
                  exact noOcc_formatAuthorAPA hok
                    (hl y ((List.take_sublist _ _).subset hy))
                · exact noOcc_formatAuthorAPA hok (noOcc_getLastD hok hl)
      · rw [if_neg hap] at hfa
        by_cases hml : style = str "mla"
        · rw [if_pos hml] at hfa
          cases hle : authorEntries authors with
          | nil =>
            rw [hle] at hfa
            exact absurd hfa (by simp)
          | cons a l2 =>
            rw [hle] at hl
            cases l2 with
            | nil =>
              rw [hle] at hfa
              simp only [Option.some.injEq] at hfa
              subst hfa
              exact noOcc_formatAuthorMLA false hok (hl a (by simp))
            | cons b l3 =>
              cases l3 with
              | nil =>
                rw [hle] at hfa
                simp only [Option.some.injEq] at hfa
                subst hfa
                exact noOcc_glue hok (str ", and ") (by decide)
                  (noOcc_formatAuthorMLA false hok (hl a (by simp)))
                  (noOcc_formatAuthorMLA true hok (hl b (by simp)))
              | cons c rest =>
                rw [hle] at hfa
                simp only [Option.some.injEq] at hfa
                subst hfa
                exact noOcc_snoc_lit hok (str ", et al.") (by decide)
                  (noOcc_formatAuthorMLA false hok (hl a (by simp)))
        · rw [if_neg hml] at hfa
          by_cases hch : style = str "chicago"
          · rw [if_pos hch] at hfa
            cases hle : authorEntries authors with
            | nil =>
              rw [hle] at hfa
              exact absurd hfa (by simp)
            | cons a l2 =>
              rw [hle] at hl
              cases l2 with
              | nil =>
                rw [hle] at hfa
                simp only [Option.some.injEq] at hfa
                subst hfa
                exact noOcc_formatAuthorChicago false hok (hl a (by simp))
              | cons b l3 =>
                rw [hle] at hfa
                simp only [Option.some.injEq] at hfa
                split at hfa <;> rw [Option.some.injEq] at hfa <;> subst hfa
                · apply noOcc_glue hok (str ", and ") (by decide)
                  · apply noOcc_join_lit hok (str ", ") (by decide)
                    intro x hx
                    rcases List.mem_cons.mp hx with rfl | hx2
                    · exact noOcc_formatAuthorChicago false hok (hl a (by simp))
                    · rcases List.mem_map.mp hx2 with ⟨y, hy, rfl⟩
                      refine noOcc_formatAuthorChicago true hok (hl y ?_)
                      exact List.mem_cons_of_mem a
                        ((List.dropLast_sublist _).subset hy)
                  · refine noOcc_formatAuthorChicago true hok ?_
                    apply noOcc_getLastD hok
                    intro x hx
                    exact hl x (List.mem_cons_of_mem a hx)
                · exact noOcc_snoc_lit hok (str " et al.") (by decide)
                    (noOcc_formatAuthorChicago false hok (hl a (by simp)))
          · rw [if_neg hch, Option.some.injEq] at hfa
            subst hfa
            apply noOcc_join_lit hok (str ", ") (by decide)
            intro x hx
            rcases List.mem_map.mp hx with ⟨y, hy, rfl⟩
            exact noOcc_formatAuthorAPA hok (hl y hy)

/-- Ending in a qualifying literal gives a non-letter last character. -/
theorem lastNA_snoc_lit (x mid : Str)
    (hside : (!(mid.getLast?.map isAlphaChar).getD false && !mid.isEmpty) = true) :
    LastNonAlpha (x ++ mid) := by
  simp only [Bool.and_eq_true] at hside
  refine lastNA_append_right ?_ (lastNA_lit (by simpa using hside.1))
  intro he
  rw [he] at hside
  simp at hside

/-- The date renderer for the `mla` and `chicago` styles never introduces a
forbidden token. -/
theorem noOcc_formatDate {t : Str} (env : Env) (m : Metadata) (style : Str)
    (hsty : style = str "mla" ∨ style = str "chicago")
    (hok : okToken t) (hy : NoOcc t m.year)
    (hp : ∀ d r, env.parse d = some r → NoOcc t r.1 ∧ NoOcc t r.2) :
    NoOcc t (formatDate env m style) := by
  unfold formatDate
  split
  · exact noOcc_pool hok _ (by decide)
  · rcases hsty with rfl | rfl
    · rw [if_neg (show ¬(str "mla" = str "apa") by decide), if_pos rfl]
      split
      · cases hpr : env.parse m.date with
        | none => exact hy
        | some r => exact (hp _ _ hpr).1
      · exact hy
    · rw [if_neg (show ¬(str "chicago" = str "apa") by decide),
        if_neg (show ¬(str "chicago" = str "mla") by decide), if_pos rfl]
      split
      · cases hpr : env.parse m.date with
        | none => exact hy
        | some r => exact (hp _ _ hpr).2
      · exact hy

/-- The access-date string is one of the two environment renderings. -/
theorem noOcc_getAccessDate {t : Str} (env : Env) (style : Str)
    (h1 : NoOcc t env.accessMla) (h2 : NoOcc t env.accessLong) :
    NoOcc t (getAccessDate env style) := by
  unfold getAccessDate
  split
  · exact h1
  · exact h2

/-- The BibTeX entry type is always one of the five pool literals. -/
theorem noOcc_getBibTeXType {t : Str} (st : Str) (m : Metadata)
    (hok : okToken t) : NoOcc t (getBibTeXType st m) := by
  unfold getBibTeXType
  split
  · exact noOcc_pool hok _ (by decide)
  · cases hlk : List.lookup st bibtexTypeMap with
    | none => exact noOcc_pool hok _ (by decide)
    | some v =>
      have hv := lookup_mem_snd _ hlk
      simp only [bibtexTypeMap, List.map_cons, List.map_nil, List.mem_cons,
        List.not_mem_nil, or_false] at hv
      rcases hv with rfl | rfl | rfl | rfl | rfl <;>
        exact noOcc_pool hok _ (by decide)

/-- The APA renderer output is non-empty and keeps forbidden tokens out. -/
theorem noOcc_toAPA {t : Str} (env : Env) (m : Metadata) (hok : okToken t)
    (hcf : CleanFields t m) {s : Str} (hs : toAPA env m = some s) :
    NoOcc t s ∧ s ≠ [] := by
  obtain ⟨hti, hau, hda, hyr, hur, hpu, hdo, his, hjo, hvo, hiss, hpg⟩ := hcf
  simp only [toAPA] at hs
  cases hfa : formatAuthors m.author (str "apa") with
  | none =>
    rw [hfa] at hs
    exact absurd hs (by simp)
  | some fa =>
    rw [hfa] at hs
    simp only [Option.some.injEq] at hs
    subst hs
    have hfa2 : NoOcc t fa := noOcc_formatAuthors hok hau hfa
    have hUA : NoOcc t (jsOr fa (str "Unknown Author")) :=
      noOcc_jsOr hfa2 (noOcc_pool hok _ (by decide))
    have hY : NoOcc t (jsOr m.year (str "n.d.")) :=
      noOcc_jsOr hyr (noOcc_pool hok _ (by decide))
    have hT : NoOcc t (jsOr m.title (str "Untitled")) :=
      noOcc_jsOr hti (noOcc_pool hok _ (by decide))
    constructor
    · refine noOcc_of_sub ?_ (jsTrim_sub _)
      refine noOcc_glue hok (str "). ") (by decide)
        (noOcc_glue hok (str " (") (by decide) hUA hY) ?_
      refine noOcc_ite _ ?_ (noOcc_ite _ ?_ (noOcc_ite _ ?_ ?_))
      · have hPub : NoOcc t (if m.publisher ≠ [] then m.publisher ++ str ". " else []) :=
          noOcc_ite _ (noOcc_snoc_lit hok (str ". ") (by decide) hpu) (noOcc_nil hok)
        have hXp := noOcc_append hok.1 (Or.inl (lastNA_snoc_lit _ (str ". ") (by decide)))
          (noOcc_snoc_lit hok (str ". ") (by decide) hT) hPub
        exact noOcc_append hok.1
          (Or.inl (lastNA_append (lastNA_snoc_lit _ (str ". ") (by decide))
            (lastNA_ite _ (lastNA_snoc_lit _ (str ". ") (by decide)) lastNA_nil)))
          hXp (noOcc_ite _ hur (noOcc_nil hok))
      · have hVol : NoOcc t (if m.volume ≠ [] then str ", " ++ m.volume else []) :=
          noOcc_ite _ (noOcc_cons_lit hok (str ", ") (by decide) hvo) (noOcc_nil hok)
        have hJ0 := noOcc_append hok.1
          (Or.inr (headNA_ite _ (headNA_append_left _ (by decide)
            (headNA_lit (by decide))) headNA_nil)) hjo hVol
        have hIss : NoOcc t (if m.issue ≠ [] then str "(" ++ m.issue ++ str ")" else []) :=
          noOcc_ite _ (noOcc_snoc_lit hok (str ")") (by decide)
            (noOcc_cons_lit hok (str "(") (by decide) hiss)) (noOcc_nil hok)
        have hJ1 := noOcc_append hok.1
          (Or.inr (headNA_ite _ (headNA_append_left _
            (append_ne_nil_left _ _ (by decide))
            (headNA_append_left _ (by decide) (headNA_lit (by decide))))
            headNA_nil)) hJ0 hIss
        have hPg : NoOcc t (if m.pages ≠ [] then str ", " ++ m.pages else []) :=
          noOcc_ite _ (noOcc_cons_lit hok (str ", ") (by decide) hpg) (noOcc_nil hok)
        have hJ2 := noOcc_append hok.1
          (Or.inr (headNA_ite _ (headNA_append_left _ (by decide)
            (headNA_lit (by decide))) headNA_nil)) hJ1 hPg
        have hJ3 := noOcc_snoc_lit hok (str ". ") (by decide) hJ2
        have hJite := noOcc_ite (m.journal ≠ []) hJ3 (noOcc_nil hok)
        have hX := noOcc_append hok.1 (Or.inl (lastNA_snoc_lit _ (str ". ") (by decide)))
          (noOcc_snoc_lit hok (str ". ") (by decide) hT) hJite
        have hD : NoOcc t (if m.doi ≠ [] then str "https://doi.org/" ++ m.doi
            else if m.url ≠ [] then m.url else []) :=
          noOcc_ite _ (noOcc_cons_lit hok (str "https://doi.org/") (by decide) hdo)
            (noOcc_ite _ hur (noOcc_nil hok))
        exact noOcc_append hok.1
          (Or.inl (lastNA_append (lastNA_snoc_lit _ (str ". ") (by decide))
            (lastNA_ite _ (lastNA_snoc_lit _ (str ". ") (by decide)) lastNA_nil)))
          hX hD
      · have hXp := noOcc_append hok.1 (Or.inl (lastNA_snoc_lit _ (str ". ") (by decide)))
          (noOcc_snoc_lit hok (str ". ") (by decide) hT)
          (noOcc_ite (m.publisher ≠ []) hpu (noOcc_nil hok))
        exact noOcc_append hok.1
          (Or.inr (headNA_ite _ (headNA_append_left _ (by decide)
            (headNA_lit (by decide))) headNA_nil))
          hXp
          (noOcc_ite _ (noOcc_cons_lit hok (str ". https://doi.org/") (by decide) hdo)
            (noOcc_nil hok))
      · exact noOcc_append hok.1 (Or.inl (lastNA_snoc_lit _ (str ". ") (by decide)))
          (noOcc_snoc_lit hok (str ". ") (by decide) hT)
          (noOcc_ite _ hur (noOcc_nil hok))
    · refine jsTrim_ne_nil_of_mem ?_ (show isWsChar '(' = false by decide)
      exact List.mem_append_left _ (List.mem_append_left _
        (List.mem_append_left _ (List.mem_append_right _ (by decide))))
/-- The MLA renderer output is non-empty and keeps forbidden tokens out. -/
theorem noOcc_toMLA {t : Str} (env : Env) (m : Metadata) (hok : okToken t)
    (hcf : CleanFields t m) (hce : CleanEnv t env) {s : Str}
    (hs : toMLA env m = some s) : NoOcc t s ∧ s ≠ [] := by
  obtain ⟨hti, hau, hda, hyr, hur, hpu, hdo, his, hjo, hvo, hiss, hpg⟩ := hcf
  obtain ⟨hce1, hce2, hce3, hcep⟩ := hce
  simp only [toMLA] at hs
  cases hfa : formatAuthors m.author (str "mla") with
  | none =>
    rw [hfa] at hs
    exact absurd hs (by simp)
  | some fa =>
    rw [hfa] at hs
    simp only [Option.some.injEq] at hs
    subst hs
    have hfa2 : NoOcc t fa := noOcc_formatAuthors hok hau hfa
    have hT : NoOcc t (jsOr m.title (str "Untitled")) :=
      noOcc_jsOr hti (noOcc_pool hok _ (by decide))
    have hC0 : NoOcc t (if fa ≠ [] then fa ++ str ". " else []) :=
      noOcc_ite _ (noOcc_snoc_lit hok (str ". ") (by decide) hfa2) (noOcc_nil hok)
    have hC0l : LastNonAlpha (if fa ≠ [] then fa ++ str ". " else []) :=
      lastNA_ite _ (lastNA_snoc_lit _ (str ". ") (by decide)) lastNA_nil
    have hFD : NoOcc t (formatDate env m (str "mla")) :=
      noOcc_formatDate env m _ (Or.inl rfl) hok hyr hcep
    have hAcc : NoOcc t (if m.includeAccessDate = true then
        str " Accessed " ++ getAccessDate env (str "mla") ++ str "." else []) :=
      noOcc_ite _ (noOcc_snoc_lit hok (str ".") (by decide)
        (noOcc_cons_lit hok (str " Accessed ") (by decide)
          (noOcc_getAccessDate env _ hce1 hce2))) (noOcc_nil hok)
    have hAccH : HeadNonAlpha (if m.includeAccessDate = true then
        str " Accessed " ++ getAccessDate env (str "mla") ++ str "." else []) :=
      headNA_ite _ (headNA_append_left _ (append_ne_nil_left _ _ (by decide))
        (headNA_append_left _ (by decide) (headNA_lit (by decide)))) headNA_nil
    have hUrl : NoOcc t (if m.url ≠ [] then m.url ++ str "." else []) :=
      noOcc_ite _ (noOcc_snoc_lit hok (str ".") (by decide) hur) (noOcc_nil hok)
    constructor
    · refine noOcc_of_sub ?_ (jsTrim_sub _)
      refine noOcc_append hok.1 (Or.inl hC0l) hC0 ?_
      refine noOcc_ite _ ?_ (noOcc_ite _ ?_ (noOcc_ite _ ?_ ?_))
      · have h2 := noOcc_snoc_lit hok (str ".\" ") (by decide)
          (noOcc_cons_lit hok (str "\"") (by decide) hT)
        have h3 := noOcc_append hok.1
          (Or.inl (lastNA_snoc_lit _ (str ".\" ") (by decide))) h2
          (noOcc_ite (m.publisher ≠ []) (noOcc_snoc_lit hok (str ", ") (by decide) hpu)
            (noOcc_nil hok))
        have h4 := noOcc_append hok.1
          (Or.inl (lastNA_append (lastNA_snoc_lit _ (str ".\" ") (by decide))
            (lastNA_ite _ (lastNA_snoc_lit _ (str ", ") (by decide)) lastNA_nil)))
          h3 hFD
        have h5 := noOcc_snoc_lit hok (str ", ") (by decide) h4
        have h6 := noOcc_append hok.1
          (Or.inl (lastNA_snoc_lit _ (str ", ") (by decide))) h5 hUrl
        exact noOcc_append hok.1 (Or.inr hAccH) h6 hAcc
      · have h2 := noOcc_snoc_lit hok (str ".\" ") (by decide)
          (noOcc_cons_lit hok (str "\"") (by decide) hT)
        have h3 := noOcc_append hok.1
          (Or.inl (lastNA_snoc_lit _ (str ".\" ") (by decide))) h2
          (noOcc_ite (m.journal ≠ []) (noOcc_snoc_lit hok (str ", ") (by decide) hjo)
            (noOcc_nil hok))
        have hlast3 : LastNonAlpha ((str "\"" ++ jsOr m.title (str "Untitled") ++
            str ".\" ") ++ (if m.journal ≠ [] then m.journal ++ str ", " else [])) :=
          lastNA_append (lastNA_snoc_lit _ (str ".\" ") (by decide))
            (lastNA_ite _ (lastNA_snoc_lit _ (str ", ") (by decide)) lastNA_nil)
        have h4 := noOcc_append hok.1 (Or.inl hlast3) h3
          (noOcc_ite (m.volume ≠ []) (noOcc_snoc_lit hok (str ", ") (by decide)
            (noOcc_cons_lit hok (str "vol. ") (by decide) hvo)) (noOcc_nil hok))
        have hlast4 := lastNA_append hlast3
          (lastNA_ite (m.volume ≠ [])
            (lastNA_snoc_lit (str "vol. " ++ m.volume) (str ", ") (by decide))
            lastNA_nil)
        have h5 := noOcc_append hok.1 (Or.inl hlast4) h4
          (noOcc_ite (m.issue ≠ []) (noOcc_snoc_lit hok (str ", ") (by decide)
            (noOcc_cons_lit hok (str "no. ") (by decide) hiss)) (noOcc_nil hok))
        have hlast5 := lastNA_append hlast4
          (lastNA_ite (m.issue ≠ [])
            (lastNA_snoc_lit (str "no. " ++ m.issue) (str ", ") (by decide))
            lastNA_nil)
        have h6 := noOcc_append hok.1 (Or.inl hlast5) h5 hFD
        have h7 := noOcc_snoc_lit hok (str ", ") (by decide) h6
        have h8 := noOcc_append hok.1
          (Or.inl (lastNA_snoc_lit _ (str ", ") (by decide))) h7
          (noOcc_ite (m.pages ≠ []) (noOcc_snoc_lit hok (str ". ") (by decide)
            (noOcc_cons_lit hok (str "pp. ") (by decide) hpg)) (noOcc_nil hok))
        exact noOcc_append hok.1
          (Or.inl (lastNA_append (lastNA_snoc_lit _ (str ", ") (by decide))
            (lastNA_ite _ (lastNA_snoc_lit _ (str ". ") (by decide)) lastNA_nil)))
          h8
          (noOcc_ite _ (noOcc_cons_lit hok (str "https://doi.org/") (by decide) hdo)
            (noOcc_nil hok))
      · have h2 := noOcc_snoc_lit hok (str ". ") (by decide) hT
        have h3 := noOcc_append hok.1
          (Or.inl (lastNA_snoc_lit _ (str ". ") (by decide))) h2
          (noOcc_ite (m.publisher ≠ []) (noOcc_snoc_lit hok (str ", ") (by decide) hpu)
            (noOcc_nil hok))
        have h4 := noOcc_append hok.1
          (Or.inl (lastNA_append (lastNA_snoc_lit _ (str ". ") (by decide))
            (lastNA_ite _ (lastNA_snoc_lit _ (str ", ") (by decide)) lastNA_nil)))
          h3 (noOcc_jsOr hyr (noOcc_pool hok (str "n.d.") (by decide)))
        exact noOcc_snoc_lit hok (str ".") (by decide) h4
      · have h2 := noOcc_snoc_lit hok (str ".\" ") (by decide)
          (noOcc_cons_lit hok (str "\"") (by decide) hT)
        have h3 := noOcc_append hok.1
          (Or.inl (lastNA_snoc_lit _ (str ".\" ") (by decide))) h2 hUrl
        exact noOcc_append hok.1 (Or.inr hAccH) h3 hAcc
    · by_cases hb1 : m.sourceType = str "webpage" ∨ m.sourceType = str "news"
      · rw [if_pos hb1]
        refine jsTrim_ne_nil_of_mem ?_ (show isWsChar '"' = false by decide)
        refine List.mem_append_right _ ?_
        exact List.mem_append_left _ (List.mem_append_left _
          (List.mem_append_left _ (List.mem_append_left _
            (List.mem_append_left _ (List.mem_append_left _
              (List.mem_append_left _ (by decide)))))))
      · rw [if_neg hb1]
        by_cases hb2 : m.sourceType = str "journal" ∨ m.sourceType = str "article"
        · rw [if_pos hb2]
          refine jsTrim_ne_nil_of_mem ?_ (show isWsChar '"' = false by decide)
          refine List.mem_append_right _ ?_
          exact List.mem_append_left _ (List.mem_append_left _
            (List.mem_append_left _ (List.mem_append_left _
              (List.mem_append_left _ (List.mem_append_left _
                (List.mem_append_left _ (List.mem_append_left _
                  (List.mem_append_left _ (by decide)))))))))
        · rw [if_neg hb2]
          by_cases hb3 : m.sourceType = str "book"
          · rw [if_pos hb3]
            refine jsTrim_ne_nil_of_mem ?_ (show isWsChar '.' = false by decide)
            refine List.mem_append_right _ ?_
            exact List.mem_append_left _ (List.mem_append_left _
              (List.mem_append_left _ (List.mem_append_right _ (by decide))))
          · rw [if_neg hb3]
            refine jsTrim_ne_nil_of_mem ?_ (show isWsChar '"' = false by decide)
            refine List.mem_append_right _ ?_
            exact List.mem_append_left _ (List.mem_append_left _
              (List.mem_append_left _ (List.mem_append_left _ (by decide))))

/-- The Chicago renderer output is non-empty and keeps forbidden tokens out. -/
theorem noOcc_toChicago {t : Str} (env : Env) (m : Metadata) (hok : okToken t)
    (hcf : CleanFields t m) (hce : CleanEnv t env) {s : Str}
    (hs : toChicago env m = some s) : NoOcc t s ∧ s ≠ [] := by
  obtain ⟨hti, hau, hda, hyr, hur, hpu, hdo, his, hjo, hvo, hiss, hpg⟩ := hcf
  obtain ⟨hce1, hce2, hce3, hcep⟩ := hce
  simp only [toChicago] at hs
  cases hfa : formatAuthors m.author (str "chicago") with
  | none =>
    rw [hfa] at hs
    exact absurd hs (by simp)
  | some fa =>
    rw [hfa] at hs
    simp only [Option.some.injEq] at hs
    subst hs
    have hfa2 : NoOcc t fa := noOcc_formatAuthors hok hau hfa
    have hT : NoOcc t (jsOr m.title (str "Untitled")) :=
      noOcc_jsOr hti (noOcc_pool hok _ (by decide))
    have hC0 : NoOcc t (if fa ≠ [] then fa ++ str ". " else []) :=
      noOcc_ite _ (noOcc_snoc_lit hok (str ". ") (by decide) hfa2) (noOcc_nil hok)
    have hC0l : LastNonAlpha (if fa ≠ [] then fa ++ str ". " else []) :=
      lastNA_ite _ (lastNA_snoc_lit _ (str ". ") (by decide)) lastNA_nil
    have hFD : NoOcc t (formatDate env m (str "chicago")) :=
      noOcc_formatDate env m _ (Or.inr rfl) hok hyr hcep
    constructor
    · refine noOcc_of_sub ?_ (jsTrim_sub _)
      refine noOcc_append hok.1 (Or.inl hC0l) hC0 ?_
      refine noOcc_ite _ ?_ (noOcc_ite _ ?_ (noOcc_ite _ ?_ ?_))
      · have h2 := noOcc_snoc_lit hok (str ".\" ") (by decide)
          (noOcc_cons_lit hok (str "\"") (by decide) hT)
        have h3 := noOcc_append hok.1
          (Or.inl (lastNA_snoc_lit _ (str ".\" ") (by decide))) h2
          (noOcc_ite (m.publisher ≠ []) (noOcc_snoc_lit hok (str ". ") (by decide) hpu)
            (noOcc_nil hok))
        have hlast3 := lastNA_append (lastNA_snoc_lit
            (str "\"" ++ jsOr m.title (str "Untitled")) (str ".\" ") (by decide))
          (lastNA_ite (m.publisher ≠ [])
            (lastNA_snoc_lit m.publisher (str ". ") (by decide)) lastNA_nil)
        have h4 := noOcc_append hok.1 (Or.inl hlast3) h3
          (noOcc_ite (m.date ≠ [] ∨ m.year ≠ [])
            (noOcc_snoc_lit hok (str ". ") (by decide) hFD) (noOcc_nil hok))
        have hlast4 := lastNA_append hlast3
          (lastNA_ite (m.date ≠ [] ∨ m.year ≠ [])
            (lastNA_snoc_lit (formatDate env m (str "chicago")) (str ". ")
              (by decide)) lastNA_nil)
        exact noOcc_append hok.1 (Or.inl hlast4) h4
          (noOcc_ite (m.url ≠ []) (noOcc_snoc_lit hok (str ".") (by decide) hur)
            (noOcc_nil hok))
      · have h2 := noOcc_snoc_lit hok (str ".\" ") (by decide)
          (noOcc_cons_lit hok (str "\"") (by decide) hT)
        have h3 := noOcc_append hok.1
          (Or.inl (lastNA_snoc_lit _ (str ".\" ") (by decide))) h2
          (noOcc_ite (m.journal ≠ []) (noOcc_snoc_lit hok (str " ") (by decide) hjo)
            (noOcc_nil hok))
        have hlast3 := lastNA_append (lastNA_snoc_lit
            (str "\"" ++ jsOr m.title (str "Untitled")) (str ".\" ") (by decide))
          (lastNA_ite (m.journal ≠ [])
            (lastNA_snoc_lit m.journal (str " ") (by decide)) lastNA_nil)
        have h4 := noOcc_append hok.1 (Or.inl hlast3) h3
          (noOcc_ite (m.volume ≠ []) hvo (noOcc_nil hok))
        have h5 := noOcc_append hok.1
          (Or.inr (headNA_ite (m.issue ≠ [])
            (headNA_append_left _ (by decide) (headNA_lit (by decide)))
            headNA_nil)) h4
          (noOcc_ite (m.issue ≠ []) (noOcc_cons_lit hok (str ", no. ") (by decide) hiss)
            (noOcc_nil hok))
        have h6 := noOcc_snoc_lit hok (str " (") (by decide) h5
        have h7 := noOcc_append hok.1
          (Or.inl (lastNA_snoc_lit _ (str " (") (by decide))) h6
          (noOcc_jsOr hyr (noOcc_pool hok (str "n.d.") (by decide)))
        have h8 := noOcc_snoc_lit hok (str "): ") (by decide) h7
        have h9 := noOcc_append hok.1
          (Or.inl (lastNA_snoc_lit _ (str "): ") (by decide))) h8
          (noOcc_ite (m.pages ≠ []) (noOcc_snoc_lit hok (str ". ") (by decide) hpg)
            (noOcc_nil hok))
        exact noOcc_append hok.1
          (Or.inl (lastNA_append (lastNA_snoc_lit _ (str "): ") (by decide))
            (lastNA_ite _ (lastNA_snoc_lit _ (str ". ") (by decide)) lastNA_nil)))
          h9
          (noOcc_ite _ (noOcc_cons_lit hok (str "https://doi.org/") (by decide) hdo)
            (noOcc_nil hok))
      · have h2 := noOcc_snoc_lit hok (str ". ") (by decide) hT
        have h3 := noOcc_append hok.1
          (Or.inl (lastNA_snoc_lit _ (str ". ") (by decide))) h2
          (noOcc_ite (m.publisher ≠ []) (noOcc_snoc_lit hok (str ", ") (by decide) hpu)
            (noOcc_nil hok))
        have h4 := noOcc_append hok.1
          (Or.inl (lastNA_append (lastNA_snoc_lit _ (str ". ") (by decide))
            (lastNA_ite _ (lastNA_snoc_lit _ (str ", ") (by decide)) lastNA_nil)))
          h3 (noOcc_jsOr hyr (noOcc_pool hok (str "n.d.") (by decide)))
        exact noOcc_snoc_lit hok (str ".") (by decide) h4
      · have h2 := noOcc_snoc_lit hok (str ".\" ") (by decide)
          (noOcc_cons_lit hok (str "\"") (by decide) hT)
        exact noOcc_append hok.1
          (Or.inl (lastNA_snoc_lit _ (str ".\" ") (by decide))) h2
          (noOcc_ite _ (noOcc_snoc_lit hok (str ".") (by decide) hur)
            (noOcc_nil hok))
    · by_cases hb1 : m.sourceType = str "webpage" ∨ m.sourceType = str "news"
      · rw [if_pos hb1]
        refine jsTrim_ne_nil_of_mem ?_ (show isWsChar '"' = false by decide)
        refine List.mem_append_right _ ?_
        exact List.mem_append_left _ (List.mem_append_left _
          (List.mem_append_left _ (List.mem_append_left _
            (List.mem_append_left _ (by decide)))))
      · rw [if_neg hb1]
        by_cases hb2 : m.sourceType = str "journal" ∨ m.sourceType = str "article"
        · rw [if_pos hb2]
          refine jsTrim_ne_nil_of_mem ?_ (show isWsChar '"' = false by decide)
          refine List.mem_append_right _ ?_
          exact List.mem_append_left _ (List.mem_append_left _
            (List.mem_append_left _ (List.mem_append_left _
              (List.mem_append_left _ (List.mem_append_left _
                (List.mem_append_left _ (List.mem_append_left _
                  (List.mem_append_left _ (List.mem_append_left _ (by decide))))))))))
        · rw [if_neg hb2]
          by_cases hb3 : m.sourceType = str "book"
          · rw [if_pos hb3]
            refine jsTrim_ne_nil_of_mem ?_ (show isWsChar '.' = false by decide)
            refine List.mem_append_right _ ?_
            exact List.mem_append_left _ (List.mem_append_left _
              (List.mem_append_left _ (List.mem_append_right _ (by decide))))
          · rw [if_neg hb3]
            refine jsTrim_ne_nil_of_mem ?_ (show isWsChar '"' = false by decide)
            refine List.mem_append_right _ ?_
            exact List.mem_append_left _ (List.mem_append_left _
              (List.mem_append_left _ (by decide)))

/-- The Harvard renderer output is non-empty and keeps forbidden tokens out. -/
theorem noOcc_toHarvard {t : Str} (env : Env) (m : Metadata) (hok : okToken t)
    (hcf : CleanFields t m) (hce : CleanEnv t env) {s : Str}
    (hs : toHarvard env m = some s) : NoOcc t s ∧ s ≠ [] := by
  obtain ⟨hti, hau, hda, hyr, hur, hpu, hdo, his, hjo, hvo, hiss, hpg⟩ := hcf
  obtain ⟨hce1, hce2, hce3, hcep⟩ := hce
  simp only [toHarvard] at hs
  cases hfa : formatAuthors m.author (str "harvard") with
  | none =>
    rw [hfa] at hs
    exact absurd hs (by simp)
  | some fa =>
    rw [hfa] at hs
    simp only [Option.some.injEq] at hs
    subst hs
    have hfa2 : NoOcc t fa := noOcc_formatAuthors hok hau hfa
    have hUA : NoOcc t (jsOr fa (str "Unknown Author")) :=
      noOcc_jsOr hfa2 (noOcc_pool hok _ (by decide))
    have hT : NoOcc t (jsOr m.title (str "Untitled")) :=
      noOcc_jsOr hti (noOcc_pool hok _ (by decide))
    have hAcc : NoOcc t (if m.includeAccessDate = true then
        str " (Accessed: " ++ getAccessDate env (str "harvard") ++ str ")" else []) :=
      noOcc_ite _ (noOcc_snoc_lit hok (str ")") (by decide)
        (noOcc_cons_lit hok (str " (Accessed: ") (by decide)
          (noOcc_getAccessDate env _ hce1 hce2))) (noOcc_nil hok)
    have hAccH : HeadNonAlpha (if m.includeAccessDate = true then
        str " (Accessed: " ++ getAccessDate env (str "harvard") ++ str ")" else []) :=
      headNA_ite _ (headNA_append_left _ (append_ne_nil_left _ _ (by decide))
        (headNA_append_left _ (by decide) (headNA_lit (by decide)))) headNA_nil
    constructor
    · refine noOcc_of_sub ?_ (jsTrim_sub _)
      refine noOcc_glue hok (str ") ") (by decide)
        (noOcc_glue hok (str " (") (by decide) hUA
          (noOcc_jsOr hyr (noOcc_pool hok (str "n.d.") (by decide)))) ?_
      refine noOcc_ite _ ?_ (noOcc_ite _ ?_ (noOcc_ite _ ?_ ?_))
      · have h2 := noOcc_snoc_lit hok (str "', ") (by decide)
          (noOcc_cons_lit hok (str "'") (by decide) hT)
        have h3 := noOcc_append hok.1
          (Or.inl (lastNA_snoc_lit _ (str "', ") (by decide))) h2
          (noOcc_ite (m.publisher ≠ []) (noOcc_snoc_lit hok (str ", ") (by decide) hpu)
            (noOcc_nil hok))
        have hlast3 := lastNA_append (lastNA_snoc_lit
            (str "'" ++ jsOr m.title (str "Untitled")) (str "', ") (by decide))
          (lastNA_ite (m.publisher ≠ [])
            (lastNA_snoc_lit m.publisher (str ", ") (by decide)) lastNA_nil)
        have h4 := noOcc_append hok.1 (Or.inl hlast3) h3
          (noOcc_pool hok (str "Available at: ") (by decide))
        have h5 := noOcc_append hok.1
          (Or.inl (lastNA_snoc_lit _ (str "Available at: ") (by decide))) h4
          (noOcc_jsOr hur (noOcc_pool hok (str "URL") (by decide)))
        have h6 := noOcc_append hok.1 (Or.inr hAccH) h5 hAcc
        exact noOcc_snoc_lit hok (str ".") (by decide) h6
      · have h2 := noOcc_snoc_lit hok (str "', ") (by decide)
          (noOcc_cons_lit hok (str "'") (by decide) hT)
        have h3 := noOcc_append hok.1
          (Or.inl (lastNA_snoc_lit _ (str "', ") (by decide))) h2
          (noOcc_ite (m.journal ≠ []) (noOcc_snoc_lit hok (str ", ") (by decide) hjo)
            (noOcc_nil hok))
        have hlast3 := lastNA_append (lastNA_snoc_lit
            (str "'" ++ jsOr m.title (str "Untitled")) (str "', ") (by decide))
          (lastNA_ite (m.journal ≠ [])
            (lastNA_snoc_lit m.journal (str ", ") (by decide)) lastNA_nil)
        have h4 := noOcc_append hok.1 (Or.inl hlast3) h3
          (noOcc_ite (m.volume ≠ []) hvo (noOcc_nil hok))
        have h5 := noOcc_append hok.1
          (Or.inr (headNA_ite (m.issue ≠ [])
            (headNA_append_left _ (append_ne_nil_left _ _ (by decide))
              (headNA_append_left _ (by decide) (headNA_lit (by decide))))
            headNA_nil)) h4
          (noOcc_ite (m.issue ≠ []) (noOcc_snoc_lit hok (str ")") (by decide)
            (noOcc_cons_lit hok (str "(") (by decide) hiss)) (noOcc_nil hok))
        have h6 := noOcc_append hok.1
          (Or.inr (headNA_ite (m.pages ≠ [])
            (headNA_append_left _ (by decide) (headNA_lit (by decide)))
            headNA_nil)) h5
          (noOcc_ite (m.pages ≠ []) (noOcc_cons_lit hok (str ", pp. ") (by decide) hpg)
            (noOcc_nil hok))
        have h7 := noOcc_snoc_lit hok (str ".") (by decide) h6
        exact noOcc_append hok.1
          (Or.inl (lastNA_snoc_lit _ (str ".") (by decide))) h7
          (noOcc_ite _ (noOcc_snoc_lit hok (str ".") (by decide)
            (noOcc_cons_lit hok (str " doi: ") (by decide) hdo)) (noOcc_nil hok))
      · have h2 := noOcc_snoc_lit hok (str ". ") (by decide) hT
        exact noOcc_append hok.1
          (Or.inl (lastNA_snoc_lit _ (str ". ") (by decide))) h2
          (noOcc_ite _ (noOcc_snoc_lit hok (str ".") (by decide) hpu)
            (noOcc_nil hok))
      · have h2 := noOcc_snoc_lit hok (str "'. ") (by decide)
          (noOcc_cons_lit hok (str "'") (by decide) hT)
        exact noOcc_append hok.1
          (Or.inl (lastNA_snoc_lit _ (str "'. ") (by decide))) h2
          (noOcc_ite _ (noOcc_snoc_lit hok (str ".") (by decide)
            (noOcc_cons_lit hok (str "Available at: ") (by decide) hur))
            (noOcc_nil hok))
    · refine jsTrim_ne_nil_of_mem ?_ (show isWsChar '(' = false by decide)
      exact List.mem_append_left _ (List.mem_append_left _
        (List.mem_append_left _ (List.mem_append_right _ (by decide))))

/-- The IEEE renderer output is non-empty and keeps forbidden tokens out. -/
theorem noOcc_toIEEE {t : Str} (env : Env) (m : Metadata) (hok : okToken t)
    (hcf : CleanFields t m) (hce : CleanEnv t env) {s : Str}
    (hs : toIEEE env m = some s) : NoOcc t s ∧ s ≠ [] := by
  obtain ⟨hti, hau, hda, hyr, hur, hpu, hdo, his, hjo, hvo, hiss, hpg⟩ := hcf
  obtain ⟨hce1, hce2, hce3, hcep⟩ := hce
  simp only [toIEEE, Option.some.injEq] at hs
  subst hs
  have hfa2 : NoOcc t (formatAuthorsIEEE m.author) :=
    noOcc_formatAuthorsIEEE hok hau
  have hT : NoOcc t (jsOr m.title (str "Untitled")) :=
    noOcc_jsOr hti (noOcc_pool hok _ (by decide))
  have hC0 : NoOcc t (if formatAuthorsIEEE m.author ≠ [] then
      formatAuthorsIEEE m.author ++ str ", " else []) :=
    noOcc_ite _ (noOcc_snoc_lit hok (str ", ") (by decide) hfa2) (noOcc_nil hok)
  have hC0l : LastNonAlpha (if formatAuthorsIEEE m.author ≠ [] then
      formatAuthorsIEEE m.author ++ str ", " else []) :=
    lastNA_ite _ (lastNA_snoc_lit _ (str ", ") (by decide)) lastNA_nil
  have hAcc : NoOcc t (if m.includeAccessDate = true then
      str " [Accessed: " ++ getAccessDate env (str "ieee") ++ str "]." else []) :=
    noOcc_ite _ (noOcc_snoc_lit hok (str "].") (by decide)
      (noOcc_cons_lit hok (str " [Accessed: ") (by decide)
        (noOcc_getAccessDate env _ hce1 hce2))) (noOcc_nil hok)
  have hAccH : HeadNonAlpha (if m.includeAccessDate = true then
      str " [Accessed: " ++ getAccessDate env (str "ieee") ++ str "]." else []) :=
    headNA_ite _ (headNA_append_left _ (append_ne_nil_left _ _ (by decide))
      (headNA_append_left _ (by decide) (headNA_lit (by decide)))) headNA_nil
  constructor
  · refine noOcc_of_sub ?_ (jsTrim_sub _)
    refine noOcc_append hok.1 (Or.inl hC0l) hC0 ?_
    refine noOcc_ite _ ?_ (noOcc_ite _ ?_ (noOcc_ite _ ?_ ?_))
    · have h2 := noOcc_snoc_lit hok (str ",\" ") (by decide)
        (noOcc_cons_lit hok (str "\"") (by decide) hT)
      have h3 := noOcc_append hok.1
        (Or.inl (lastNA_snoc_lit _ (str ",\" ") (by decide))) h2
        (noOcc_ite (m.publisher ≠ []) (noOcc_snoc_lit hok (str ". ") (by decide) hpu)
          (noOcc_nil hok))
      have hUb : NoOcc t (if m.url ≠ [] then
          str "[Online]. Available: " ++ m.url ++ str "." ++
            (if m.includeAccessDate = true then
              str " [Accessed: " ++ getAccessDate env (str "ieee") ++ str "]."
            else []) else []) :=
        noOcc_ite _ (noOcc_append hok.1 (Or.inr hAccH)
          (noOcc_snoc_lit hok (str ".") (by decide)
            (noOcc_cons_lit hok (str "[Online]. Available: ") (by decide) hur))
          hAcc) (noOcc_nil hok)
      exact noOcc_append hok.1
        (Or.inl (lastNA_append (lastNA_snoc_lit
            (str "\"" ++ jsOr m.title (str "Untitled")) (str ",\" ") (by decide))
          (lastNA_ite (m.publisher ≠ [])
            (lastNA_snoc_lit m.publisher (str ". ") (by decide)) lastNA_nil)))
        h3 hUb
    · have h2 := noOcc_snoc_lit hok (str ",\" ") (by decide)
        (noOcc_cons_lit hok (str "\"") (by decide) hT)
      have h3 := noOcc_append hok.1
        (Or.inl (lastNA_snoc_lit _ (str ",\" ") (by decide))) h2
        (noOcc_ite (m.journal ≠ []) (noOcc_snoc_lit hok (str ", ") (by decide) hjo)
          (noOcc_nil hok))
      have hlast3 := lastNA_append (lastNA_snoc_lit
          (str "\"" ++ jsOr m.title (str "Untitled")) (str ",\" ") (by decide))
        (lastNA_ite (m.journal ≠ [])
          (lastNA_snoc_lit m.journal (str ", ") (by decide)) lastNA_nil)
      have h4 := noOcc_append hok.1 (Or.inl hlast3) h3
        (noOcc_ite (m.volume ≠ []) (noOcc_snoc_lit hok (str ", ") (by decide)
          (noOcc_cons_lit hok (str "vol. ") (by decide) hvo)) (noOcc_nil hok))
      have hlast4 := lastNA_append hlast3
        (lastNA_ite (m.volume ≠ [])
          (lastNA_snoc_lit (str "vol. " ++ m.volume) (str ", ") (by decide))
          lastNA_nil)
      have h5 := noOcc_append hok.1 (Or.inl hlast4) h4
        (noOcc_ite (m.issue ≠ []) (noOcc_snoc_lit hok (str ", ") (by decide)
          (noOcc_cons_lit hok (str "no. ") (by decide) hiss)) (noOcc_nil hok))
      have hlast5 := lastNA_append hlast4
        (lastNA_ite (m.issue ≠ [])
          (lastNA_snoc_lit (str "no. " ++ m.issue) (str ", ") (by decide))
          lastNA_nil)
      have h6 := noOcc_append hok.1 (Or.inl hlast5) h5
        (noOcc_ite (m.pages ≠ []) (noOcc_snoc_lit hok (str ", ") (by decide)
          (noOcc_cons_lit hok (str "pp. ") (by decide) hpg)) (noOcc_nil hok))
      have hlast6 := lastNA_append hlast5
        (lastNA_ite (m.pages ≠ [])
          (lastNA_snoc_lit (str "pp. " ++ m.pages) (str ", ") (by decide))
          lastNA_nil)
      have h7 := noOcc_append hok.1 (Or.inl hlast6) h6
        (noOcc_jsOr hyr (noOcc_pool hok (str "n.d.") (by decide)))
      have h8 := noOcc_snoc_lit hok (str ".") (by decide) h7
      exact noOcc_append hok.1
        (Or.inl (lastNA_snoc_lit _ (str ".") (by decide))) h8
        (noOcc_ite _ (noOcc_snoc_lit hok (str ".") (by decide)
          (noOcc_cons_lit hok (str " doi: ") (by decide) hdo)) (noOcc_nil hok))
    · have h2 := noOcc_snoc_lit hok (str ". ") (by decide) hT
      have h3 := noOcc_append hok.1
        (Or.inl (lastNA_snoc_lit _ (str ". ") (by decide))) h2
        (noOcc_ite (m.publisher ≠ []) (noOcc_snoc_lit hok (str ", ") (by decide) hpu)
          (noOcc_nil hok))
      have h4 := noOcc_append hok.1
        (Or.inl (lastNA_append (lastNA_snoc_lit _ (str ". ") (by decide))
          (lastNA_ite _ (lastNA_snoc_lit _ (str ", ") (by decide)) lastNA_nil)))
        h3 (noOcc_jsOr hyr (noOcc_pool hok (str "n.d.") (by decide)))
      exact noOcc_snoc_lit hok (str ".") (by decide) h4
    · have h2 := noOcc_snoc_lit hok (str ".\" ") (by decide)
        (noOcc_cons_lit hok (str "\"") (by decide) hT)
      exact noOcc_append hok.1
        (Or.inl (lastNA_snoc_lit _ (str ".\" ") (by decide))) h2
        (noOcc_ite _ (noOcc_snoc_lit hok (str ".") (by decide)
          (noOcc_cons_lit hok (str "[Online]. Available: ") (by decide) hur))
          (noOcc_nil hok))
  · by_cases hb1 : m.sourceType = str "webpage" ∨ m.sourceType = str "news"
    · rw [if_pos hb1]
      refine jsTrim_ne_nil_of_mem ?_ (show isWsChar '"' = false by decide)
      refine List.mem_append_right _ ?_
      exact List.mem_append_left _ (List.mem_append_left _
        (List.mem_append_left _ (List.mem_append_left _ (by decide))))
    · rw [if_neg hb1]
      by_cases hb2 : m.sourceType = str "journal" ∨ m.sourceType = str "article"
      · rw [if_pos hb2]
        refine jsTrim_ne_nil_of_mem ?_ (show isWsChar '"' = false by decide)
        refine List.mem_append_right _ ?_
        exact List.mem_append_left _ (List.mem_append_left _
          (List.mem_append_left _ (List.mem_append_left _
            (List.mem_append_left _ (List.mem_append_left _
              (List.mem_append_left _ (List.mem_append_left _
                (List.mem_append_left _ (by decide)))))))))
      · rw [if_neg hb2]
        by_cases hb3 : m.sourceType = str "book"
        · rw [if_pos hb3]
          refine jsTrim_ne_nil_of_mem ?_ (show isWsChar '.' = false by decide)
          refine List.mem_append_right _ ?_
          exact List.mem_append_left _ (List.mem_append_left _
            (List.mem_append_left _ (List.mem_append_right _ (by decide))))
        · rw [if_neg hb3]
          refine jsTrim_ne_nil_of_mem ?_ (show isWsChar '"' = false by decide)
          refine List.mem_append_right _ ?_
          exact List.mem_append_left _ (List.mem_append_left _
            (List.mem_append_left _ (by decide)))

/-- The BibTeX renderer output is non-empty and, provided the generated key
is clean, keeps forbidden tokens out. -/
theorem noOcc_toBibTeX {t : Str} (env : Env) (m : Metadata) (hok : okToken t)
    (hcf : CleanFields t m) (hce : CleanEnv t env)
    (hkey : NoOcc t
      (generateKeyFromFormat env.nowYear m (jsOr m.keyFormat defaultKeyFormat)))
    {s : Str} (hs : toBibTeX env m = some s) : NoOcc t s ∧ s ≠ [] := by
  obtain ⟨hti, hau, hda, hyr, hur, hpu, hdo, his, hjo, hvo, hiss, hpg⟩ := hcf
  obtain ⟨hce1, hce2, hce3, hcep⟩ := hce
  simp only [toBibTeX] at hs
  cases hfa : formatAuthors m.author (str "bibtex") with
  | none =>
    rw [hfa] at hs
    exact absurd hs (by simp)
  | some fa =>
    rw [hfa] at hs
    simp only [Option.some.injEq] at hs
    subst hs
    have hfa2 : NoOcc t fa := noOcc_formatAuthors hok hau hfa
    have hFields : ∀ x ∈ bibtexFields env m fa, NoOcc t x := by
      intro x hx
      simp only [bibtexFields, List.mem_append] at hx
      rcases hx with ((((((((((h | h) | h) | h) | h) | h) | h) | h) | h) | h) | h) | h
      · obtain rfl := mem_ite_singleton h
        exact noOcc_snoc_lit hok (str "\x7d") (by decide)
          (noOcc_cons_lit hok (str "  author = \x7b") (by decide) hfa2)
      · obtain rfl := mem_ite_singleton h
        exact noOcc_snoc_lit hok (str "\x7d") (by decide)
          (noOcc_cons_lit hok (str "  title = \x7b") (by decide) hti)
      · obtain rfl := mem_ite_singleton h
        exact noOcc_snoc_lit hok (str "\x7d") (by decide)
          (noOcc_cons_lit hok (str "  year = \x7b") (by decide) hyr)
      · obtain rfl := mem_ite_singleton h
        exact noOcc_snoc_lit hok (str "\x7d") (by decide)
          (noOcc_cons_lit hok (str "  url = \x7b") (by decide) hur)
      · obtain rfl := mem_ite_singleton h
        exact noOcc_snoc_lit hok (str "\x7d") (by decide)
          (noOcc_cons_lit hok (str "  publisher = \x7b") (by decide) hpu)
      · obtain rfl := mem_ite_singleton h
        exact noOcc_snoc_lit hok (str "\x7d") (by decide)
          (noOcc_cons_lit hok (str "  journal = \x7b") (by decide) hjo)
      · obtain rfl := mem_ite_singleton h
        exact noOcc_snoc_lit hok (str "\x7d") (by decide)
          (noOcc_cons_lit hok (str "  volume = \x7b") (by decide) hvo)
      · obtain rfl := mem_ite_singleton h
        exact noOcc_snoc_lit hok (str "\x7d") (by decide)
          (noOcc_cons_lit hok (str "  number = \x7b") (by decide) hiss)
      · obtain rfl := mem_ite_singleton h
        exact noOcc_snoc_lit hok (str "\x7d") (by decide)
          (noOcc_cons_lit hok (str "  pages = \x7b") (by decide) hpg)
      · obtain rfl := mem_ite_singleton h
        exact noOcc_snoc_lit hok (str "\x7d") (by decide)
          (noOcc_cons_lit hok (str "  doi = \x7b") (by decide) hdo)
      · obtain rfl := mem_ite_singleton h
        exact noOcc_snoc_lit hok (str "\x7d") (by decide)
          (noOcc_cons_lit hok (str "  isbn = \x7b") (by decide) his)
      · obtain rfl := mem_ite_singleton h
        exact noOcc_snoc_lit hok (str "\x7d") (by decide)
          (noOcc_cons_lit hok (str "  urldate = \x7b") (by decide) hce3)
    constructor
    · have h1 := noOcc_cons_lit hok (str "@") (by decide)
        (noOcc_getBibTeXType m.sourceType m hok)
      have h2 := noOcc_snoc_lit hok (str "\x7b") (by decide) h1
      have h3 := noOcc_append hok.1
        (Or.inl (lastNA_snoc_lit _ (str "\x7b") (by decide))) h2 hkey
      have h4 := noOcc_snoc_lit hok (str ",\n") (by decide) h3
      have h5 := noOcc_append hok.1
        (Or.inl (lastNA_snoc_lit _ (str ",\n") (by decide))) h4
        (noOcc_join_lit hok (str ",\n") (by decide) hFields)
      exact noOcc_snoc_lit hok (str "\n\x7d") (by decide) h5
    · apply append_ne_nil_left
      apply append_ne_nil_left
      apply append_ne_nil_left
      apply append_ne_nil_left
      apply append_ne_nil_left
      apply append_ne_nil_left
      decide

instance (t s : Str) : Decidable (NoOcc t s) := by
  unfold NoOcc
  infer_instance

instance (t : Str) : Decidable (okToken t) := by
  unfold okToken
  infer_instance

instance (t : Str) (m : Metadata) : Decidable (CleanFields t m) := by
  unfold CleanFields
  infer_instance

/-- C6 (counterexample): the claim promises a result for *every* record, but
an author field that splits into zero entries (here the bare separator `";"`)
makes the `apa` author branch index an empty array and throw a `TypeError`
(modelled as `none`), so `format` does not even return a string. -/
theorem format_partial_on_empty_author_split :
    format envA { author := str ";" } (str "apa") = none := by decide

/-- C6 (amended): for every environment, record and style, provided the
author field (when present) splits into at least one entry, the record's
field values and the environment's rendered date strings contain neither
`undefined` nor `NaN`, and the generated BibTeX key is likewise clean,
`format` returns a non-empty string containing neither the substring
`undefined` nor the substring `NaN`. -/
theorem format_output_never_undefined_or_NaN (env : Env) (m : Metadata)
    (style : Str) (hA : authorOk m)
    (hcfU : CleanFields (str "undefined") m) (hcfN : CleanFields (str "NaN") m)
    (hceU : CleanEnv (str "undefined") env) (hceN : CleanEnv (str "NaN") env)
    (hkU : NoOcc (str "undefined")
      (generateKeyFromFormat env.nowYear m (jsOr m.keyFormat defaultKeyFormat)))
    (hkN : NoOcc (str "NaN")
      (generateKeyFromFormat env.nowYear m (jsOr m.keyFormat defaultKeyFormat))) :
    ∃ s, format env m style = some s ∧ s ≠ [] ∧
      NoOcc (str "undefined") s ∧ NoOcc (str "NaN") s := by
  have hokU : okToken (str "undefined") := by decide
  have hokN : okToken (str "NaN") := by decide
  unfold format
  by_cases h1 : style = str "bibtex"
  · rw [if_pos h1]
    cases hbt : toBibTeX env m with
    | none =>
      have hso := toBibTeX_isSome env m
      rw [hbt] at hso
      simp at hso
    | some s =>
      obtain ⟨nU, n2⟩ := noOcc_toBibTeX env m hokU hcfU hceU hkU hbt
      obtain ⟨nN, _⟩ := noOcc_toBibTeX env m hokN hcfN hceN hkN hbt
      exact ⟨s, rfl, n2, nU, nN⟩
  · rw [if_neg h1]
    by_cases h2 : style = str "apa"
    · rw [if_pos h2]
      cases hap : toAPA env m with
      | none =>
        have hso := toAPA_isSome env m hA
        rw [hap] at hso
        simp at hso
      | some s =>
        obtain ⟨nU, n2⟩ := noOcc_toAPA env m hokU hcfU hap
        obtain ⟨nN, _⟩ := noOcc_toAPA env m hokN hcfN hap
        exact ⟨s, rfl, n2, nU, nN⟩
    · rw [if_neg h2]
      by_cases h3 : style = str "mla"
      · rw [if_pos h3]
        cases hml : toMLA env m with
        | none =>
          have hso := toMLA_isSome env m hA
          rw [hml] at hso
          simp at hso
        | some s =>
          obtain ⟨nU, n2⟩ := noOcc_toMLA env m hokU hcfU hceU hml
          obtain ⟨nN, _⟩ := noOcc_toMLA env m hokN hcfN hceN hml
          exact ⟨s, rfl, n2, nU, nN⟩
      · rw [if_neg h3]
        by_cases h4 : style = str "chicago"
        · rw [if_pos h4]
          cases hch : toChicago env m with
          | none =>
            have hso := toChicago_isSome env m hA
            rw [hch] at hso
            simp at hso
          | some s =>
            obtain ⟨nU, n2⟩ := noOcc_toChicago env m hokU hcfU hceU hch
            obtain ⟨nN, _⟩ := noOcc_toChicago env m hokN hcfN hceN hch
            exact ⟨s, rfl, n2, nU, nN⟩
        · rw [if_neg h4]
          by_cases h5 : style = str "harvard"
          · rw [if_pos h5]
            cases hhv : toHarvard env m with
            | none =>
              have hso := toHarvard_isSome env m
              rw [hhv] at hso
              simp at hso
            | some s =>
              obtain ⟨nU, n2⟩ := noOcc_toHarvard env m hokU hcfU hceU hhv
              obtain ⟨nN, _⟩ := noOcc_toHarvard env m hokN hcfN hceN hhv
              exact ⟨s, rfl, n2, nU, nN⟩
          · rw [if_neg h5]
            by_cases h6 : style = str "ieee"
            · rw [if_pos h6]
              cases hie : toIEEE env m with
              | none =>
                have hso := toIEEE_isSome env m
                rw [hie] at hso
                simp at hso
              | some s =>
                obtain ⟨nU, n2⟩ := noOcc_toIEEE env m hokU hcfU hceU hie
                obtain ⟨nN, _⟩ := noOcc_toIEEE env m hokN hcfN hceN hie
                exact ⟨s, rfl, n2, nU, nN⟩
            · rw [if_neg h6]
              cases hbt : toBibTeX env m with
              | none =>
                have hso := toBibTeX_isSome env m
                rw [hbt] at hso
                simp at hso
              | some s =>
                obtain ⟨nU, n2⟩ := noOcc_toBibTeX env m hokU hcfU hceU hkU hbt
                obtain ⟨nN, _⟩ := noOcc_toBibTeX env m hokN hcfN hceN hkN hbt
                exact ⟨s, rfl, n2, nU, nN⟩

/-- C6 (witness): the amended guarantee instantiated on the empty record,
the fixed host day and the `apa` style. -/
theorem format_output_never_undefined_or_NaN_witness :
    ∃ s, format envA {} (str "apa") = some s ∧ s ≠ [] ∧
      NoOcc (str "undefined") s ∧ NoOcc (str "NaN") s :=
  format_output_never_undefined_or_NaN envA {} (str "apa") (by decide)
    (by decide) (by decide)
    ⟨by decide, by decide, by decide, fun d r h => by simp [envA] at h⟩
    ⟨by decide, by decide, by decide, fun d r h => by simp [envA] at h⟩
    (by decide) (by decide)

end JustCite
